import Mathlib

/-!
# Tetris engine (`src/tetris.js`): shallow embedding and verified properties

The game state of `tetris.js` is a set of global variables; here it is the record `State`,
passed explicitly.  Numbers that are times or speeds are rationals, grid coordinates are
integers, the score is a natural number.  A JavaScript operation that would throw a
`TypeError` or write outside the 20x10 grid makes the embedded function return `none`.
-/

namespace Tetris

/-! ## Constants -/

def ROWS : Nat := 20
def COLUMNS : Nat := 10
def COLORS : List String :=
  ["#FF0D72", "#0DC2FF", "#0DFF72", "#F538FF", "#FF8E0D", "#FFE138", "#3877FF"]
def INITIAL_FALL_SPEED : ℚ := 800
def SPEED_INCREASE_INTERVAL : ℚ := 30000
def SPEED_INCREASE_FACTOR : ℚ := 85 / 100
def MOVE_DELAY : ℚ := 100
def INITIAL_MOVE_DELAY : ℚ := 200

/-! ## Data model -/

/-- A colour is the string stored in a board cell. -/
abbrev Color := String

/-- A board cell: `none` is JavaScript `null`, `some c` holds the colour string `c`. -/
abbrev Cell := Option Color

/-- The board: a list of rows, row 0 on top. -/
abbrev Board := List (List Cell)

/-- A shape matrix: rows of numbers, a non-zero entry is an occupied cell. -/
abbrev Shape := List (List Nat)

/-- The value `{x, y}` of `currentPosition`. -/
structure Position where
  x : Int
  y : Int
deriving DecidableEq, Repr

/-- The seven tetrominoes, in the order of the source table. -/
def SHAPES : List Shape :=
  [ [[1, 1, 1], [0, 1, 0]],
    [[1, 1], [1, 1]],
    [[1, 1, 0], [0, 1, 1]],
    [[0, 1, 1], [1, 1, 0]],
    [[1, 1, 1, 1]],
    [[1, 0, 0], [1, 1, 1]],
    [[0, 0, 1], [1, 1, 1]] ]

/-- JavaScript truthiness of a board cell: `null` and the empty string are falsy. -/
def truthy (cell : Cell) : Bool :=
  match cell with
  | none => false
  | some c => c != ""

/-- The read `shape[r][c]`; an entry that does not exist reads as falsy (`0`). -/
def shapeAt (shape : Shape) (r c : Nat) : Nat :=
  (shape.getD r []).getD c 0

/-- The read `board[y][x]` at integer coordinates; outside the stored cells it yields `none`. -/
def boardAt (board : Board) (y x : Int) : Cell :=
  if y < 0 ∨ x < 0 then none else (board.getD y.toNat []).getD x.toNat none

/-- A well-formed board: `ROWS` rows of `COLUMNS` cells, each `null` or a non-empty colour. -/
def IsBoard (board : Board) : Prop :=
  board.length = ROWS ∧ ∀ row ∈ board, row.length = COLUMNS ∧ ∀ cell ∈ row, cell ≠ some ""

instance (board : Board) : Decidable (IsBoard board) := by
  unfold IsBoard; infer_instance

/-- The cell `(r, c)` of the shape matrix exists and is truthy. -/
def Occupied (shape : Shape) (r c : Nat) : Prop :=
  r < shape.length ∧ c < (shape.getD r []).length ∧ shapeAt shape r c ≠ 0

instance (shape : Shape) (r c : Nat) : Decidable (Occupied shape r c) := by
  unfold Occupied; infer_instance

/-! ## Collision (`collision`, lines 296-314) -/

/-- The test made on one truthy shape cell that lands on board coordinates `(x, y)`. -/
def cellCollides (board : Board) (x y : Int) : Bool :=
  (decide (x < 0) || decide (x ≥ (COLUMNS : Int)) || decide (y ≥ (ROWS : Int))) ||
    (decide (y ≥ 0) && truthy (boardAt board y x))

/-- The function `collision(pos, shape)`: the two nested loops return `true` at the first
truthy shape cell that is outside the columns, below the floor, or on a truthy board cell. -/
def collision (board : Board) (pos : Position) (shape : Shape) : Bool :=
  (List.range shape.length).any fun r =>
    (List.range (shape.getD r []).length).any fun c =>
      shapeAt shape r c != 0 && cellCollides board (pos.x + c) (pos.y + r)

/-! ## Locking (`placePiece`, lines 317-329) -/

/-- The assignment `board[py][px] = value`.  It is defined only inside the stored grid:
for `py` past the last row `board[py]` is `undefined` and the assignment throws, and for a
column outside the row JavaScript would store the value outside the row's cells. -/
def writeCell (board : Board) (py px : Int) (value : Cell) : Option Board :=
  if py < 0 ∨ px < 0 then none
  else
    match board[py.toNat]? with
    | none => none
    | some row =>
      if px.toNat < row.length then some (board.set py.toNat (row.set px.toNat value))
      else none

/-- The inner `row.forEach((value, x) => ...)` of `placePiece`, from column index `x` on. -/
def placeRow (pos : Position) (color : Color) (y : Nat) :
    Nat → List Nat → Board → Option Board
  | _, [], board => some board
  | x, value :: rest, board =>
    if value != 0 then
      let py := pos.y + y
      let px := pos.x + x
      if py ≥ 0 then
        match writeCell board py px (some color) with
        | none => none
        | some board1 => placeRow pos color y (x + 1) rest board1
      else placeRow pos color y (x + 1) rest board
    else placeRow pos color y (x + 1) rest board

/-- The outer `currentShape.forEach((row, y) => ...)` of `placePiece`, from row index `y` on. -/
def placeRows (pos : Position) (color : Color) :
    Nat → Shape → Board → Option Board
  | _, [], board => some board
  | y, row :: rest, board =>
    match placeRow pos color y 0 row board with
    | none => none
    | some board1 => placeRows pos color (y + 1) rest board1

/-- The board left by `placePiece()` for the given piece. -/
def placeOnBoard (board : Board) (shape : Shape) (pos : Position) (color : Color) :
    Option Board :=
  placeRows pos color 0 shape board

/-! ## Completed lines (`checkCompletedLines`, lines 332-355) -/

/-- The test `board[r].every(cell => cell !== null)`. -/
def rowFull (board : Board) (r : Nat) : Bool :=
  (board.getD r []).all fun cell => cell != none

/-- The loop `for (let r = ROWS - 1; r >= 0; r--)` that pushes every full row index:
the indices come out from the bottom row upwards. -/
def findCompletedLines (board : Board) : List Nat :=
  (List.range ROWS).reverse.filter fun r => rowFull board r

/-- The loop `for (let y = r; y > 0; y--) board[y] = [...board[y-1]]`, entered with `y`. -/
def shiftDown : Nat → Board → Board
  | 0, board => board
  | y + 1, board => shiftDown y (board.set (y + 1) (board.getD y []))

/-- One iteration of `for (let r of completedLines)`: the rows above `r` move down by one
onto `r`, then row 0 becomes a fresh empty row. -/
def clearLine (board : Board) (r : Nat) : Board :=
  (shiftDown r board).set 0 (List.replicate COLUMNS none)

/-- The whole loop of the deferred callback over the recorded lines, in recorded order. -/
def compactBoard (board : Board) (lines : List Nat) : Board :=
  lines.foldl clearLine board

/-! ## Rotation (`rotateMatrix`, lines 282-293) -/

/-- The assignment `newMatrix[i][j] = v` on a matrix of numbers. -/
def setEntry (m : Shape) (i j : Nat) (v : Nat) : Shape :=
  m.set i ((m.getD i []).set j v)

/-- The function `rotateMatrix(matrix)`: a `cols x rows` matrix of zeros is filled by the
two loops with `newMatrix[c][rows - 1 - r] = matrix[r][c]`.  An empty matrix has no
`matrix[0]`, and reading its length throws. -/
def rotateMatrix (matrix : Shape) : Option Shape :=
  match matrix with
  | [] => none
  | row0 :: _ =>
    let rows := matrix.length
    let cols := row0.length
    let newMatrix : Shape := List.replicate cols (List.replicate rows 0)
    some ((List.range rows).foldl (fun m r =>
      (List.range cols).foldl (fun m c =>
        setEntry m c (rows - 1 - r) (shapeAt matrix r c)) m) newMatrix)

/-! ## Game state -/

/-- The object `mobileButtons`. -/
structure MobileButtons where
  left : Bool
  right : Bool
  up : Bool
  down : Bool
deriving DecidableEq, Repr

/-- The global variables of the game.  `pendingCompactions` counts the `setTimeout`
callbacks of `checkCompletedLines` that are scheduled and have not run yet. -/
structure State where
  board : Board
  currentShape : Shape
  currentPosition : Position
  currentColor : Color
  nextShape : Shape
  nextColor : Color
  score : Nat
  gameOver : Bool
  isPaused : Bool
  lastTime : ℚ
  dropCounter : ℚ
  fallSpeed : ℚ
  lastSpeedIncreaseTime : ℚ
  completedLines : List Nat
  lastMoveTime : ℚ
  isFirstMove : Bool
  mobileButtons : MobileButtons
  pendingCompactions : Nat
deriving DecidableEq

/-- The function `placePiece()` on the game state. -/
def placePiece (s : State) : Option State :=
  match placeOnBoard s.board s.currentShape s.currentPosition s.currentColor with
  | none => none
  | some board1 => some { s with board := board1 }

/-- The synchronous part of `checkCompletedLines()`: the full rows are recorded, and when
there is at least one the score grows by 100 per row and the compaction is scheduled. -/
def checkCompletedLines (s : State) : State :=
  let lines := findCompletedLines s.board
  if lines.length > 0 then
    { s with
      completedLines := lines
      score := s.score + lines.length * 100
      pendingCompactions := s.pendingCompactions + 1 }
  else
    { s with completedLines := lines }

/-- The callback given to `setTimeout` in `checkCompletedLines`, run when the timer fires.
It reads `completedLines` and `board` as they are at that moment. -/
def compactionCallback (s : State) : State :=
  { s with
    board := compactBoard s.board s.completedLines
    completedLines := []
    pendingCompactions := s.pendingCompactions - 1 }

/-- The spawn position of a shape whose first row is `row0`. -/
def spawnPosition (row0 : List Nat) : Position :=
  { x := ((COLUMNS / 2 : Nat) : Int) - ((row0.length / 2 : Nat) : Int), y := 0 }

/-- The function `generateNewShape()`.  The index `rnd` is the value of
`Math.floor(Math.random() * SHAPES.length)`; the next colour is the palette entry of the
same index, which is what `COLORS[SHAPES.indexOf(nextShape)]` yields.  An empty next shape
has no first row and the width read throws. -/
def generateNewShape (s : State) (rnd : Fin 7) : Option State :=
  match s.nextShape with
  | [] => none
  | row0 :: _ =>
    let s1 : State :=
      { s with
        currentShape := s.nextShape
        currentColor := s.nextColor
        currentPosition := spawnPosition row0
        nextShape := SHAPES.getD rnd.val []
        nextColor := COLORS.getD rnd.val "" }
    if collision s1.board s1.currentPosition s1.currentShape then
      some { s1 with gameOver := true }
    else some s1

/-- The function `movePiece(dx, dy)`: the returned boolean and the new state.  `rnd` is the
random index used if the call spawns a piece. -/
def movePiece (s : State) (dx dy : Int) (rnd : Fin 7) : Option (Bool × State) :=
  let newPos : Position := { x := s.currentPosition.x + dx, y := s.currentPosition.y + dy }
  if !collision s.board newPos s.currentShape then
    some (true, { s with currentPosition := newPos })
  else if dy > 0 then
    match placePiece s with
    | none => none
    | some s1 =>
      match generateNewShape (checkCompletedLines s1) rnd with
      | none => none
      | some s3 => some (false, s3)
  else some (false, s)

/-- The function `rotatePiece()`. -/
def rotatePiece (s : State) : Option State :=
  match rotateMatrix s.currentShape with
  | none => none
  | some rotated =>
    if !collision s.board s.currentPosition rotated then
      some { s with currentShape := rotated }
    else some s

/-- The function `hardDrop()`: `while (movePiece(0, 1));`.  The loop has no bound in the
source; `fuel` bounds the number of `movePiece` calls and `none` is returned when it is
used up. -/
def hardDrop : Nat → State → Fin 7 → Option State
  | 0, _, _ => none
  | fuel + 1, s, rnd =>
    match movePiece s 0 1 rnd with
    | none => none
    | some (true, s1) => hardDrop fuel s1 rnd
    | some (false, s1) => some s1

/-! ## Game loop and input (`gameLoop`, `canMove`, mobile handlers) -/

/-- The function `canMove(direction, currentTime)`; the direction is not used. -/
def canMove (s : State) (currentTime : ℚ) : Bool :=
  decide (currentTime - s.lastMoveTime ≥
    (if s.isFirstMove then INITIAL_MOVE_DELAY else MOVE_DELAY))

/-- One of the four held-button blocks of `gameLoop` that call `movePiece`. -/
def heldMove (held : Bool) (dx dy : Int) (time : ℚ) (rnd : Fin 7) (s : State) :
    Option State :=
  if held && canMove s time then
    match movePiece s dx dy rnd with
    | none => none
    | some (_, s1) => some { s1 with lastMoveTime := time }
  else some s

/-- The held-button block of `gameLoop` that calls `rotatePiece`. -/
def heldRotate (time : ℚ) (s : State) : Option State :=
  if s.mobileButtons.up && canMove s time then
    match rotatePiece s with
    | none => none
    | some s1 => some { s1 with lastMoveTime := time }
  else some s

/-- The automatic fall at the end of `gameLoop`. -/
def autoFall (deltaTime : ℚ) (rnd : Fin 7) (s : State) : Option State :=
  let s1 : State := { s with dropCounter := s.dropCounter + deltaTime }
  if s1.dropCounter > s1.fallSpeed then
    match movePiece s1 0 1 rnd with
    | none => none
    | some (_, s2) => some { s2 with dropCounter := 0 }
  else some s1

/-- The function `gameLoop(time)`, without drawing and rescheduling.  `rndDown` and
`rndFall` are the random indices for the held-down move and the automatic fall. -/
def gameLoop (s : State) (time : ℚ) (rndDown rndFall : Fin 7) : Option State :=
  if s.gameOver then some s
  else if s.isPaused then some s
  else
    let deltaTime := time - s.lastTime
    let s1 : State := { s with lastTime := time }
    let s2 : State :=
      if time - s1.lastSpeedIncreaseTime > SPEED_INCREASE_INTERVAL then
        { s1 with
          fallSpeed := s1.fallSpeed * SPEED_INCREASE_FACTOR
          lastSpeedIncreaseTime := time }
      else s1
    (heldMove s2.mobileButtons.left (-1) 0 time rndDown s2).bind fun s3 =>
    (heldMove s3.mobileButtons.right 1 0 time rndDown s3).bind fun s4 =>
    (heldRotate time s4).bind fun s5 =>
    (heldMove s5.mobileButtons.down 0 1 time rndDown s5).bind fun s6 =>
    autoFall deltaTime rndFall s6

/-- The action names of the mobile buttons. -/
inductive Action where
  | moveLeft
  | moveRight
  | rotate
  | moveDown
  | hardDrop
deriving DecidableEq, Repr

/-- The function `handleMobileAction(action)`; `fuel` and `rnd` serve the hard drop. -/
def handleMobileAction (s : State) (action : Action) (fuel : Nat) (rnd : Fin 7) :
    Option State :=
  match action with
  | .moveLeft =>
    some { s with mobileButtons := { s.mobileButtons with left := true }, isFirstMove := true }
  | .moveRight =>
    some { s with mobileButtons := { s.mobileButtons with right := true }, isFirstMove := true }
  | .rotate =>
    some { s with mobileButtons := { s.mobileButtons with up := true }, isFirstMove := true }
  | .moveDown =>
    some { s with mobileButtons := { s.mobileButtons with down := true }, isFirstMove := true }
  | .hardDrop => hardDrop fuel s rnd

/-- The function `handleMobileRelease(action)`. -/
def handleMobileRelease (s : State) (action : Action) : State :=
  let s1 : State := { s with isFirstMove := true }
  match action with
  | .moveLeft => { s1 with mobileButtons := { s1.mobileButtons with left := false } }
  | .moveRight => { s1 with mobileButtons := { s1.mobileButtons with right := false } }
  | .rotate => { s1 with mobileButtons := { s1.mobileButtons with up := false } }
  | .moveDown => { s1 with mobileButtons := { s1.mobileButtons with down := false } }
  | .hardDrop => s1

/-- The function `startGame()` from a previous state `s`: the timers already scheduled and
the held buttons are not touched.  `rndNext` and `rndSpawn` are the two random indices drawn,
`now` is `performance.now()`. -/
def startGame (s : State) (rndNext rndSpawn : Fin 7) (now : ℚ) : Option State :=
  let s1 : State :=
    { s with
      board := List.replicate ROWS (List.replicate COLUMNS none)
      score := 0
      gameOver := false
      isPaused := false
      fallSpeed := INITIAL_FALL_SPEED
      lastSpeedIncreaseTime := 0
      completedLines := []
      lastMoveTime := 0
      isFirstMove := true
      nextShape := SHAPES.getD rndNext.val []
      nextColor := COLORS.getD rndNext.val "" }
  match generateNewShape s1 rndSpawn with
  | none => none
  | some s2 => some { s2 with lastTime := now, dropCounter := 0 }

/-- The function `togglePause()`; `now` is `performance.now()`. -/
def togglePause (s : State) (now : ℚ) : State :=
  let s1 : State := { s with isPaused := !s.isPaused }
  if !s1.isPaused then { s1 with lastTime := now, dropCounter := 0 } else s1

/-- The `keydown` listener of `setupEventListeners` for the key name `key`.  `rnd` is the
random index of a spawn (or the first index of a restart), `rndSpawn` the second index of a
restart, `fuel` serves the hard drop, `now` is `performance.now()`. -/
def keydown (s : State) (key : String) (fuel : Nat) (rnd rndSpawn : Fin 7) (now : ℚ) :
    Option State :=
  if s.gameOver && key == "Enter" then startGame s rnd rndSpawn now
  else if s.isPaused && key != "p" then some s
  else if key == "ArrowLeft" then (movePiece s (-1) 0 rnd).map Prod.snd
  else if key == "ArrowRight" then (movePiece s 1 0 rnd).map Prod.snd
  else if key == "ArrowDown" then (movePiece s 0 1 rnd).map Prod.snd
  else if key == "ArrowUp" then rotatePiece s
  else if key == " " then hardDrop fuel s rnd
  else if key == "p" then some (togglePause s now)
  else some s

/-- The values of the global variables when the script is loaded, before `init()` runs.
The piece variables are still `undefined` there; `startGame` assigns all of them. -/
def initState : State :=
  { board := List.replicate ROWS (List.replicate COLUMNS none)
    currentShape := []
    currentPosition := { x := 0, y := 0 }
    currentColor := ""
    nextShape := []
    nextColor := ""
    score := 0
    gameOver := false
    isPaused := false
    lastTime := 0
    dropCounter := 0
    fallSpeed := INITIAL_FALL_SPEED
    lastSpeedIncreaseTime := 0
    completedLines := []
    lastMoveTime := 0
    isFirstMove := true
    mobileButtons := { left := false, right := false, up := false, down := false }
    pendingCompactions := 0 }

/-- What can happen to a running game: an animation frame, a key press, a mobile button
press or release, a click on the pause or the restart button, and a compaction timer that
fires. -/
inductive Event where
  | tick (time : ℚ) (rndDown rndFall : Fin 7)
  | key (name : String) (fuel : Nat) (rnd rndSpawn : Fin 7) (now : ℚ)
  | press (action : Action) (fuel : Nat) (rnd : Fin 7)
  | release (action : Action)
  | pauseClick (now : ℚ)
  | restartClick (rndNext rndSpawn : Fin 7) (now : ℚ)
  | timer

/-- The handler that the event runs.  A timer can only fire when one is scheduled. -/
def step (s : State) : Event → Option State
  | .tick time rndDown rndFall => gameLoop s time rndDown rndFall
  | .key name fuel rnd rndSpawn now => keydown s name fuel rnd rndSpawn now
  | .press action fuel rnd => handleMobileAction s action fuel rnd
  | .release action => some (handleMobileRelease s action)
  | .pauseClick now => some (togglePause s now)
  | .restartClick rndNext rndSpawn now => startGame s rndNext rndSpawn now
  | .timer => if s.pendingCompactions > 0 then some (compactionCallback s) else none

/-- The events of a list, handled one after the other. -/
def run (s : State) : List Event → Option State
  | [] => some s
  | e :: rest =>
    match step s e with
    | none => none
    | some s1 => run s1 rest

/-- The states of a game: `init()` calls `startGame()` on the initial globals, and every
event leads from a state of the game to a state of the game. -/
inductive Reachable : State → Prop where
  | start (rndNext rndSpawn : Fin 7) (now : ℚ) (s : State) :
      startGame initState rndNext rndSpawn now = some s → Reachable s
  | next (s : State) (e : Event) (s1 : State) :
      Reachable s → step s e = some s1 → Reachable s1

/-- The board indices `(y, x)` of the reads `board[y][x]` that `collision` makes while it
visits the given shape cells in order, up to its first `return true`. -/
def readsFrom (board : Board) (pos : Position) (shape : Shape) :
    List (Nat × Nat) → List (Int × Int)
  | [] => []
  | (r, c) :: rest =>
    if shapeAt shape r c != 0 then
      let x := pos.x + c
      let y := pos.y + r
      if decide (x < 0) || decide (x ≥ (COLUMNS : Int)) || decide (y ≥ (ROWS : Int)) then []
      else if decide (y ≥ 0) then
        (y, x) :: (if truthy (boardAt board y x) then [] else readsFrom board pos shape rest)
      else readsFrom board pos shape rest
    else readsFrom board pos shape rest

/-- The cells `(r, c)` of a shape matrix in the order of the two nested loops. -/
def shapeCells (shape : Shape) : List (Nat × Nat) :=
  (List.range shape.length).flatMap fun r =>
    (List.range (shape.getD r []).length).map fun c => (r, c)

/-- The board indices read by one call `collision(pos, shape)`. -/
def collisionReads (board : Board) (pos : Position) (shape : Shape) : List (Int × Int) :=
  readsFrom board pos shape (shapeCells shape)

/-- The number of full rows that the loop of the deferred callback takes out of the board:
for each recorded index, in order, whether the row then at that index is full. -/
def fullRowsRemoved : Board → List Nat → Nat
  | _, [] => 0
  | board, r :: rest =>
    (if rowFull board r then 1 else 0) + fullRowsRemoved (clearLine board r) rest

/-- The events of a list handled one after the other, together with the number of full rows
that the compaction callbacks took out of the board on the way. -/
def runCounting (s : State) (removed : Nat) : List Event → Option (State × Nat)
  | [] => some (s, removed)
  | e :: rest =>
    match step s e with
    | none => none
    | some s1 =>
      match e with
      | .timer => runCounting s1 (removed + fullRowsRemoved s.board s.completedLines) rest
      | _ => runCounting s1 removed rest

/-! ## Sample boards and states -/

/-- The empty row `Array(COLUMNS).fill(null)`. -/
def emptyRow : List Cell := List.replicate COLUMNS none

/-- The board of a new game. -/
def emptyBoard : Board := List.replicate ROWS emptyRow

/-- A row with every cell locked. -/
def fullRow : List Cell := List.replicate COLUMNS (some "#0DC2FF")

/-- A row with one locked cell, in column 0. -/
def cornerRow : List Cell := some "#FF0D72" :: List.replicate (COLUMNS - 1) none

/-- A board right after a lock that completed the two bottom rows: rows 18 and 19 are full,
row 17 has one locked cell, the rest is empty. -/
def doubleBoard : Board := List.replicate 17 emptyRow ++ [cornerRow, fullRow, fullRow]

/-- The state after `startGame` drew the T piece and then the O piece at time 0. -/
def sampleState : State :=
  { board := emptyBoard
    currentShape := [[1, 1, 1], [0, 1, 0]]
    currentPosition := { x := 4, y := 0 }
    currentColor := "#FF0D72"
    nextShape := [[1, 1], [1, 1]]
    nextColor := "#0DC2FF"
    score := 0
    gameOver := false
    isPaused := false
    lastTime := 0
    dropCounter := 0
    fallSpeed := INITIAL_FALL_SPEED
    lastSpeedIncreaseTime := 0
    completedLines := []
    lastMoveTime := 0
    isFirstMove := true
    mobileButtons := { left := false, right := false, up := false, down := false }
    pendingCompactions := 0 }

/-- The sample state with the two bottom rows just completed. -/
def doubleState : State := { sampleState with board := doubleBoard }

/-- The board just before the O piece lands in the last two columns of rows 18 and 19. -/
def landingBoard : Board :=
  List.replicate 17 emptyRow ++
    [cornerRow, List.replicate 8 (some "#0DC2FF") ++ [none, none],
      List.replicate 8 (some "#0DC2FF") ++ [none, none]]

/-- The O piece resting at `(8, 18)` on `landingBoard`, the T piece next. -/
def landingState : State :=
  { sampleState with
    board := landingBoard
    currentShape := [[1, 1], [1, 1]]
    currentPosition := { x := 8, y := 18 }
    currentColor := "#0DC2FF"
    nextShape := [[1, 1, 1], [0, 1, 0]]
    nextColor := "#FF0D72" }

/-- The sample game with the left button held: last tick at time `t` (which is also the
accumulated drop counter), piece at column `x` of row 0, last held-button move at `lm`. -/
def heldLeft (t : ℚ) (x : Int) (lm : ℚ) : State :=
  { sampleState with
    mobileButtons := { left := true, right := false, up := false, down := false }
    lastTime := t
    dropCounter := t
    currentPosition := { x := x, y := 0 }
    lastMoveTime := lm }

/-- What the specification asks of the compaction: the full rows are dropped, the other rows
keep their order, and as many empty rows as were dropped are put on top. -/
def specCompaction (board : Board) : Board :=
  let kept := (List.range board.length).filter fun r => !rowFull board r
  List.replicate (board.length - kept.length) emptyRow ++ kept.map fun r => board.getD r []

/-- The key presses of a game in which ten O pieces are hard-dropped in the spawn columns;
the T piece that follows cannot be placed. -/
def topOutEvents : List Event :=
  List.replicate 8 (Event.key " " 20 1 1 0) ++ [Event.key " " 20 0 1 0, Event.key " " 20 1 1 0]

/-- The game that starts with two O pieces at time 0 and handles `topOutEvents`. -/
def topOutGame : Option State :=
  (startGame initState 1 1 0).bind fun s => run s topOutEvents

/-- The game that starts with the T piece at time 0 and is paused by a click at once. -/
def pausedGame : Option State :=
  (startGame initState 0 1 0).bind fun s => run s [Event.pauseClick 0]

/-- A board whose only full row is the bottom row; row 18 has one locked cell. -/
def singleBoard : Board := List.replicate 18 emptyRow ++ [cornerRow, fullRow]

/-- The game in which a vertical I piece is dropped in column 4, a horizontal I piece is
dropped on top of it over columns 1 to 4, and the O piece that follows is moved to column 1:
the columns 1 to 3 are empty below the roof of row 15. -/
def overhangGame : Option State :=
  (startGame initState 4 4 0).bind fun s =>
    run s [Event.key "ArrowUp" 20 0 0 0, Event.key "ArrowRight" 20 0 0 0,
      Event.key " " 20 1 0 0, Event.key "ArrowLeft" 20 0 0 0, Event.key "ArrowLeft" 20 0 0 0,
      Event.key " " 20 0 0 0, Event.key "ArrowLeft" 20 0 0 0, Event.key "ArrowLeft" 20 0 0 0,
      Event.key "ArrowLeft" 20 0 0 0]

/-- The key presses that fill row 19 with two I pieces and an O piece, with a T piece lying
on columns 0 to 2 of row 17, and then bring the next I piece down to row 18 and one column
to the left, under the right arm of the T piece. -/
def underRoofEvents : List Event :=
  List.replicate 3 (Event.key "ArrowLeft" 20 0 0 0) ++ [Event.key " " 20 0 0 0] ++
    [Event.key "ArrowRight" 20 0 0 0, Event.key " " 20 1 0 0] ++
    List.replicate 4 (Event.key "ArrowLeft" 20 0 0 0) ++ [Event.key " " 20 4 0 0] ++
    List.replicate 4 (Event.key "ArrowRight" 20 0 0 0) ++ [Event.key " " 20 1 0 0] ++
    List.replicate 18 (Event.key "ArrowDown" 20 0 0 0) ++ [Event.key "ArrowLeft" 20 0 0 0]

/-- The game that starts with two I pieces at time 0 and handles `underRoofEvents`: the
compaction of row 19 is still pending. -/
def underRoofGame : Option State :=
  (startGame initState 4 4 0).bind fun s => run s underRoofEvents

/-- The game `underRoofGame` after the compaction timer has fired. -/
def overlapGame : Option State :=
  (startGame initState 4 4 0).bind fun s => run s (underRoofEvents ++ [Event.timer])

/-- The key presses that fill row 19 with two I pieces and an O piece and hard-drop the
next O piece at once, followed by the two compaction timers. -/
def doubleScoreEvents : List Event :=
  List.replicate 3 (Event.key "ArrowLeft" 20 0 0 0) ++ [Event.key " " 20 1 0 0] ++
    [Event.key "ArrowRight" 20 0 0 0, Event.key " " 20 1 0 0] ++
    List.replicate 4 (Event.key "ArrowRight" 20 0 0 0) ++ [Event.key " " 20 1 0 0] ++
    [Event.key " " 20 1 0 0, Event.timer, Event.timer]

/-- The state after `startGame` drew the T piece and then the O piece at time 100000. -/
def lateState : State := { sampleState with lastTime := 100000 }

/-- The sample game after its first tick, at 20 ms. -/
def tick20State : State := { sampleState with lastTime := 20, dropCounter := 20 }

/-- The sample game paused after the tick at 20 ms and resumed at 40000 ms. -/
def resumedState : State := { sampleState with lastTime := 40000 }

/-! ## Predicates used in the statements -/

/-- The board cells that `placeRow` writes for row index `y`, from column index `x` on. -/
def RowWrites (pos : Position) (y x : Nat) (row : List Nat) (i j : Int) : Prop :=
  pos.y + y ≥ 0 ∧ i = pos.y + y ∧
    ∃ k, k < row.length ∧ row.getD k 0 ≠ 0 ∧ j = pos.x + ((x + k : Nat) : Int)

/-- The board cells that `placeRows` writes for the rows of `shape`, numbered from `y` on. -/
def ShapeWrites (pos : Position) (y : Nat) (shape : Shape) (i j : Int) : Prop :=
  ∃ r, r < shape.length ∧ RowWrites pos (y + r) 0 (shape.getD r []) i j

/-- The piece cells that land on a board row `>= 0` lie inside the grid. -/
def InGrid (shape : Shape) (pos : Position) : Prop :=
  ∀ r c, Occupied shape r c → pos.y + r ≥ 0 →
    pos.y + r < ROWS ∧ 0 ≤ pos.x + c ∧ pos.x + c < COLUMNS

/-- The test `InGrid` as a computation over the cells of the shape matrix. -/
def inGridCheck (shape : Shape) (pos : Position) : Bool :=
  (List.range shape.length).all fun r =>
    (List.range (shape.getD r []).length).all fun c =>
      decide (shapeAt shape r c ≠ 0 → pos.y + r ≥ 0 →
        pos.y + r < ROWS ∧ 0 ≤ pos.x + c ∧ pos.x + c < COLUMNS)

instance (shape : Shape) (pos : Position) : Decidable (InGrid shape pos) :=
  decidable_of_iff (inGridCheck shape pos = true) (by
    unfold inGridCheck InGrid Occupied
    simp only [List.all_eq_true, List.mem_range, decide_eq_true_eq]
    exact ⟨fun h r c hocc hy => h r hocc.1 c hocc.2.1 hocc.2.2 hy,
      fun h r hr c hc hv hy => h r c ⟨hr, hc, hv⟩ hy⟩)

/-- The state invariant under which a lock and a spawn run without fault: a 20x10 board of
valid cells, a non-empty piece colour, the piece cells of row `>= 0` inside the grid, and a
next shape with at least one row. -/
def WellFormed (s : State) : Prop :=
  IsBoard s.board ∧ s.currentColor ≠ "" ∧ InGrid s.currentShape s.currentPosition ∧
    s.nextShape ≠ []

instance (s : State) : Decidable (WellFormed s) := by
  unfold WellFormed; infer_instance

/-- Every cell of row `r` of the board is non-empty. -/
def FullRow (board : Board) (r : Nat) : Prop :=
  ∀ c : Nat, c < COLUMNS → boardAt board r c ≠ none

instance (board : Board) (r : Nat) : Decidable (FullRow board r) := by
  unfold FullRow; infer_instance

/-- A rectangular matrix of `rows` rows with `cols` entries each. -/
def IsRect (m : Shape) (rows cols : Nat) : Prop :=
  m.length = rows ∧ ∀ row ∈ m, row.length = cols

instance (m : Shape) (rows cols : Nat) : Decidable (IsRect m rows cols) := by
  unfold IsRect; infer_instance

/-- A shape matrix that is rectangular with at least one row and one column. -/
def ShapeOk (shape : Shape) : Prop :=
  ∃ rows cols, 1 ≤ rows ∧ 1 ≤ cols ∧ IsRect shape rows cols

/-- The next piece is an entry of the shape table with the colour of the same index. -/
def NextOk (s : State) : Prop :=
  ∃ k : Fin 7, s.nextShape = SHAPES.getD k.val [] ∧ s.nextColor = COLORS.getD k.val ""

/-- The invariant of the game states: a 20x10 board of valid cells, a rectangular active
shape with a non-empty colour whose cells of row `>= 0` lie inside the grid, a next piece
from the shape table, and recorded line indices below `ROWS`. -/
def Inv (s : State) : Prop :=
  IsBoard s.board ∧ s.currentColor ≠ "" ∧ InGrid s.currentShape s.currentPosition ∧
    NextOk s ∧ ShapeOk s.currentShape ∧ ∀ r ∈ s.completedLines, r < ROWS

/-- The fall interval and the time of its last change are the same in both states. -/
def SameSpeed (s s1 : State) : Prop :=
  s1.fallSpeed = s.fallSpeed ∧ s1.lastSpeedIncreaseTime = s.lastSpeedIncreaseTime

/-- The state of `gameLoop` after it has stored the tick time and applied the speed ramp,
before the held buttons are handled. -/
def rampedState (s : State) (time : ℚ) : State :=
  let s1 : State := { s with lastTime := time }
  if time - s1.lastSpeedIncreaseTime > SPEED_INCREASE_INTERVAL then
    { s1 with
      fallSpeed := s1.fallSpeed * SPEED_INCREASE_FACTOR
      lastSpeedIncreaseTime := time }
  else s1

/-! ## Auxiliary facts about board reads -/

theorem boardAt_mem_or_none (board : Board) (y x : Int) :
    boardAt board y x = none ∨ ∃ row ∈ board, boardAt board y x ∈ row := by
  unfold boardAt
  split
  · exact Or.inl rfl
  · by_cases hy : y.toNat < board.length
    · by_cases hx : x.toNat < (board[y.toNat]).length
      · right
        refine ⟨board[y.toNat], List.getElem_mem _, ?_⟩
        simp [List.getD_eq_getElem?_getD, List.getElem?_eq_getElem, hy, hx]
      · left
        simp [List.getD_eq_getElem?_getD, List.getElem?_eq_getElem, hy]
        simp at hx
        simp [List.getElem?_eq_none, hx]
    · left
      simp at hy
      simp [List.getD_eq_getElem?_getD, List.getElem?_eq_none, hy]

theorem truthy_boardAt (board : Board) (hb : IsBoard board) (y x : Int) :
    truthy (boardAt board y x) = true ↔ boardAt board y x ≠ none := by
  rcases boardAt_mem_or_none board y x with h | ⟨row, hrow, hmem⟩
  · simp [h, truthy]
  · have hne := (hb.2 row hrow).2 _ hmem
    cases hc : boardAt board y x with
    | none => simp [truthy]
    | some c =>
      rw [hc] at hne
      have : c ≠ "" := fun h => hne (by rw [h])
      simp [truthy, this]

/-! ## Auxiliary facts about board writes -/

theorem boardAt_set_set (board : Board) (n m : Nat) (row : List Cell) (v : Cell)
    (hrow : board[n]? = some row) (hm : m < row.length) (i j : Int) :
    boardAt (board.set n (row.set m v)) i j =
      if i = (n : Int) ∧ j = (m : Int) then v else boardAt board i j := by
  have hn : n < board.length := by
    by_contra hcon
    simp only [not_lt] at hcon
    rw [List.getElem?_eq_none hcon] at hrow
    cases hrow
  unfold boardAt
  by_cases hneg : i < 0 ∨ j < 0
  · have hne : ¬ (i = (n : Int) ∧ j = (m : Int)) := by omega
    simp [hneg, hne]
  · simp only [hneg, if_false]
    have hi : (i.toNat : Int) = i := Int.toNat_of_nonneg (by omega)
    have hj : (j.toNat : Int) = j := Int.toNat_of_nonneg (by omega)
    simp only [List.getD_eq_getElem?_getD, List.getElem?_set]
    by_cases h1 : n = i.toNat
    · subst h1
      simp only [if_true, hn, Option.getD_some, List.getElem?_set]
      by_cases h2 : m = j.toNat
      · subst h2
        simp [hm, hi, hj]
      · have hne : ¬ (j = (m : Int)) := by omega
        simp [h2, hne, hrow]
    · have hne : ¬ (i = (n : Int) ∧ j = (m : Int)) := by omega
      simp [h1, hne]

theorem isBoard_set_set (board : Board) (hb : IsBoard board) (n m : Nat) (row : List Cell)
    (v : Cell) (hv : v ≠ some "") (hrow : board[n]? = some row) :
    IsBoard (board.set n (row.set m v)) := by
  have hmem : row ∈ board := List.getElem?_mem hrow
  refine ⟨by simpa using hb.1, fun r hr => ?_⟩
  rcases List.mem_or_eq_of_mem_set hr with h | h
  · exact hb.2 r h
  · subst h
    refine ⟨by simpa using (hb.2 row hmem).1, fun cell hcell => ?_⟩
    rcases List.mem_or_eq_of_mem_set hcell with h | h
    · exact (hb.2 row hmem).2 cell h
    · rw [h]; exact hv

theorem writeCell_spec (board : Board) (hb : IsBoard board) (py px : Int) (v : Cell)
    (hv : v ≠ some "") (h1 : 0 ≤ py) (h2 : py < ROWS) (h3 : 0 ≤ px) (h4 : px < COLUMNS) :
    ∃ b1, writeCell board py px v = some b1 ∧ IsBoard b1 ∧
      ∀ i j, boardAt b1 i j = if i = py ∧ j = px then v else boardAt board i j := by
  have hlen : py.toNat < board.length := by
    rw [hb.1]; omega
  have hrow : board[py.toNat]? = some board[py.toNat] := List.getElem?_eq_getElem hlen
  have hcols : (board[py.toNat]).length = COLUMNS := (hb.2 _ (List.getElem_mem _)).1
  have hpx : px.toNat < (board[py.toNat]).length := by
    rw [hcols]; omega
  refine ⟨board.set py.toNat ((board[py.toNat]).set px.toNat v), ?_, ?_, ?_⟩
  · unfold writeCell
    have hneg : ¬ (py < 0 ∨ px < 0) := by omega
    simp [hneg, hrow, hpx]
  · exact isBoard_set_set board hb _ _ _ v hv hrow
  · intro i j
    rw [boardAt_set_set board _ _ _ v hrow hpx i j]
    have e1 : ((py.toNat : Nat) : Int) = py := Int.toNat_of_nonneg h1
    have e2 : ((px.toNat : Nat) : Int) = px := Int.toNat_of_nonneg h3
    rw [e1, e2]

theorem rowWrites_cons (pos : Position) (y x : Nat) (value : Nat) (rest : List Nat)
    (i j : Int) :
    RowWrites pos y x (value :: rest) i j ↔
      (pos.y + y ≥ 0 ∧ i = pos.y + y ∧ value ≠ 0 ∧ j = pos.x + (x : Int)) ∨
        RowWrites pos y (x + 1) rest i j := by
  unfold RowWrites
  constructor
  · rintro ⟨h1, h2, k, hk, hv, hj⟩
    cases k with
    | zero => left; exact ⟨h1, h2, by simpa using hv, by simpa using hj⟩
    | succ k =>
      right
      refine ⟨h1, h2, k, by simpa using hk, by simpa using hv, ?_⟩
      rw [hj]; push_cast; ring
  · rintro (⟨h1, h2, hv, hj⟩ | ⟨h1, h2, k, hk, hv, hj⟩)
    · exact ⟨h1, h2, 0, by simp, by simpa using hv, by simpa using hj⟩
    · refine ⟨h1, h2, k + 1, by simpa using hk, by simpa using hv, ?_⟩
      rw [hj]; push_cast; ring

theorem placeRow_spec (pos : Position) (color : Color) (hc : color ≠ "") (y : Nat) :
    ∀ (row : List Nat) (x : Nat) (board : Board), IsBoard board →
      (∀ k, k < row.length → row.getD k 0 ≠ 0 → pos.y + y ≥ 0 →
        pos.y + y < ROWS ∧ 0 ≤ pos.x + ((x + k : Nat) : Int) ∧
          pos.x + ((x + k : Nat) : Int) < COLUMNS) →
      ∃ b1, placeRow pos color y x row board = some b1 ∧ IsBoard b1 ∧
        ∀ i j, (RowWrites pos y x row i j → boardAt b1 i j = some color) ∧
          (¬ RowWrites pos y x row i j → boardAt b1 i j = boardAt board i j) := by
  intro row
  induction row with
  | nil =>
    intro x board hb _
    refine ⟨board, rfl, hb, fun i j => ⟨?_, fun _ => rfl⟩⟩
    rintro ⟨_, _, k, hk, _⟩
    simp at hk
  | cons value rest ih =>
    intro x board hb hin
    have hin1 : ∀ k, k < rest.length → rest.getD k 0 ≠ 0 → pos.y + y ≥ 0 →
        pos.y + y < ROWS ∧ 0 ≤ pos.x + ((x + 1 + k : Nat) : Int) ∧
          pos.x + ((x + 1 + k : Nat) : Int) < COLUMNS := by
      intro k hk hv hy
      have := hin (k + 1) (by simpa using hk) (by simpa using hv) hy
      have e : x + (k + 1) = x + 1 + k := by omega
      rw [e] at this
      exact this
    by_cases hval : value = 0
    · obtain ⟨b1, hb1, hB1, hcells⟩ := ih (x + 1) board hb hin1
      refine ⟨b1, ?_, hB1, fun i j => ?_⟩
      · simp [placeRow, hval, hb1]
      · rw [rowWrites_cons]
        have hno : ¬ (pos.y + y ≥ 0 ∧ i = pos.y + y ∧ value ≠ 0 ∧ j = pos.x + (x : Int)) :=
          fun h => h.2.2.1 hval
        simp only [hno, false_or]
        exact hcells i j
    · by_cases hy : pos.y + y ≥ 0
      · have h0 := hin 0 (by simp) (by simpa using hval) hy
        simp only [Nat.add_zero] at h0
        obtain ⟨b0, hb0, hB0, hcells0⟩ :=
          writeCell_spec board hb (pos.y + y) (pos.x + x) (some color)
            (fun h => hc (Option.some.inj h)) hy h0.1 h0.2.1 h0.2.2
        obtain ⟨b1, hb1, hB1, hcells⟩ := ih (x + 1) b0 hB0 hin1
        refine ⟨b1, ?_, hB1, fun i j => ?_⟩
        · simp [placeRow, hval, hy, hb0, hb1]
        · rw [rowWrites_cons]
          constructor
          · rintro (⟨_, h2, _, h4⟩ | h)
            · by_cases hr : RowWrites pos y (x + 1) rest i j
              · exact (hcells i j).1 hr
              · rw [(hcells i j).2 hr, hcells0 i j]
                simp [h2, h4]
            · exact (hcells i j).1 h
          · intro hnot
            have hr : ¬ RowWrites pos y (x + 1) rest i j := fun h => hnot (Or.inr h)
            rw [(hcells i j).2 hr, hcells0 i j]
            have hne : ¬ (i = pos.y + y ∧ j = pos.x + (x : Int)) :=
              fun h => hnot (Or.inl ⟨hy, h.1, hval, h.2⟩)
            simp [hne]
      · obtain ⟨b1, hb1, hB1, hcells⟩ := ih (x + 1) board hb hin1
        refine ⟨b1, ?_, hB1, fun i j => ?_⟩
        · simp [placeRow, hval, hy, hb1]
        · rw [rowWrites_cons]
          have hno : ¬ (pos.y + y ≥ 0 ∧ i = pos.y + y ∧ value ≠ 0 ∧ j = pos.x + (x : Int)) :=
            fun h => hy h.1
          simp only [hno, false_or]
          exact hcells i j

theorem shapeWrites_cons (pos : Position) (y : Nat) (row : List Nat) (rest : Shape)
    (i j : Int) :
    ShapeWrites pos y (row :: rest) i j ↔
      RowWrites pos y 0 row i j ∨ ShapeWrites pos (y + 1) rest i j := by
  unfold ShapeWrites
  constructor
  · rintro ⟨r, hr, hw⟩
    cases r with
    | zero => left; simpa using hw
    | succ r =>
      right
      refine ⟨r, by simpa using hr, ?_⟩
      have e : y + (r + 1) = y + 1 + r := by omega
      rw [e] at hw
      simpa using hw
  · rintro (hw | ⟨r, hr, hw⟩)
    · exact ⟨0, by simp, by simpa using hw⟩
    · refine ⟨r + 1, by simpa using hr, ?_⟩
      have e : y + (r + 1) = y + 1 + r := by omega
      rw [e]
      simpa using hw

theorem placeRows_spec (pos : Position) (color : Color) (hc : color ≠ "") :
    ∀ (shape : Shape) (y : Nat) (board : Board), IsBoard board →
      (∀ r, r < shape.length → ∀ k, k < (shape.getD r []).length →
        (shape.getD r []).getD k 0 ≠ 0 → pos.y + ((y + r : Nat) : Int) ≥ 0 →
        pos.y + ((y + r : Nat) : Int) < ROWS ∧ 0 ≤ pos.x + ((0 + k : Nat) : Int) ∧
          pos.x + ((0 + k : Nat) : Int) < COLUMNS) →
      ∃ b1, placeRows pos color y shape board = some b1 ∧ IsBoard b1 ∧
        ∀ i j, (ShapeWrites pos y shape i j → boardAt b1 i j = some color) ∧
          (¬ ShapeWrites pos y shape i j → boardAt b1 i j = boardAt board i j) := by
  intro shape
  induction shape with
  | nil =>
    intro y board hb _
    refine ⟨board, rfl, hb, fun i j => ⟨?_, fun _ => rfl⟩⟩
    rintro ⟨r, hr, _⟩
    simp at hr
  | cons row rest ih =>
    intro y board hb hin
    have hrow := hin 0 (by simp)
    simp only [Nat.add_zero, List.getD_cons_zero] at hrow
    obtain ⟨b0, hb0, hB0, hcells0⟩ := placeRow_spec pos color hc y row 0 board hb hrow
    have hrest : ∀ r, r < rest.length → ∀ k, k < (rest.getD r []).length →
        (rest.getD r []).getD k 0 ≠ 0 → pos.y + ((y + 1 + r : Nat) : Int) ≥ 0 →
        pos.y + ((y + 1 + r : Nat) : Int) < ROWS ∧ 0 ≤ pos.x + ((0 + k : Nat) : Int) ∧
          pos.x + ((0 + k : Nat) : Int) < COLUMNS := by
      intro r hr k hk hv hy
      have e : y + (r + 1) = y + 1 + r := by omega
      have := hin (r + 1) (by simpa using hr) k (by simpa using hk) (by simpa using hv)
      rw [e] at this
      exact this hy
    obtain ⟨b1, hb1, hB1, hcells⟩ := ih (y + 1) b0 hB0 hrest
    refine ⟨b1, ?_, hB1, fun i j => ?_⟩
    · simp [placeRows, hb0, hb1]
    · rw [shapeWrites_cons]
      constructor
      · rintro (h | h)
        · by_cases hr : ShapeWrites pos (y + 1) rest i j
          · exact (hcells i j).1 hr
          · rw [(hcells i j).2 hr]
            exact (hcells0 i j).1 h
        · exact (hcells i j).1 h
      · intro hnot
        rw [(hcells i j).2 (fun h => hnot (Or.inr h))]
        exact (hcells0 i j).2 (fun h => hnot (Or.inl h))

theorem shapeWrites_iff (pos : Position) (shape : Shape) (i j : Int) :
    ShapeWrites pos 0 shape i j ↔
      ∃ r c, Occupied shape r c ∧ pos.y + r ≥ 0 ∧ i = pos.y + r ∧ j = pos.x + c := by
  unfold ShapeWrites RowWrites Occupied shapeAt
  constructor
  · rintro ⟨r, hr, hy, hi, k, hk, hv, hj⟩
    simp only [Nat.zero_add] at hy hi hj
    exact ⟨r, k, ⟨hr, hk, hv⟩, hy, hi, hj⟩
  · rintro ⟨r, c, ⟨hr, hk, hv⟩, hy, hi, hj⟩
    refine ⟨r, hr, ?_, ?_, c, hk, hv, ?_⟩ <;> simp only [Nat.zero_add] <;> assumption

theorem placeOnBoard_spec (board : Board) (hb : IsBoard board) (shape : Shape)
    (pos : Position) (color : Color) (hc : color ≠ "") (hin : InGrid shape pos) :
    ∃ b1, placeOnBoard board shape pos color = some b1 ∧ IsBoard b1 ∧
      ∀ i j, ((∃ r c, Occupied shape r c ∧ pos.y + r ≥ 0 ∧ i = pos.y + r ∧ j = pos.x + c) →
          boardAt b1 i j = some color) ∧
        ((¬ ∃ r c, Occupied shape r c ∧ pos.y + r ≥ 0 ∧ i = pos.y + r ∧ j = pos.x + c) →
          boardAt b1 i j = boardAt board i j) := by
  have h : ∀ r, r < shape.length → ∀ k, k < (shape.getD r []).length →
      (shape.getD r []).getD k 0 ≠ 0 → pos.y + ((0 + r : Nat) : Int) ≥ 0 →
      pos.y + ((0 + r : Nat) : Int) < ROWS ∧ 0 ≤ pos.x + ((0 + k : Nat) : Int) ∧
        pos.x + ((0 + k : Nat) : Int) < COLUMNS := by
    intro r hr k hk hv hy
    simp only [Nat.zero_add] at hy ⊢
    exact hin r k ⟨hr, hk, hv⟩ hy
  obtain ⟨b1, hb1, hB1, hcells⟩ := placeRows_spec pos color hc shape 0 board hb h
  refine ⟨b1, hb1, hB1, fun i j => ?_⟩
  rw [← shapeWrites_iff]
  exact hcells i j

theorem boardAt_nat (board : Board) (r c : Nat) :
    boardAt board r c = (board.getD r []).getD c none := by
  unfold boardAt
  have h : ¬ ((r : Int) < 0 ∨ (c : Int) < 0) := by omega
  simp [h]

theorem rowFull_iff (board : Board) (hb : IsBoard board) (r : Nat) (hr : r < ROWS) :
    rowFull board r = true ↔ FullRow board r := by
  have hlen : r < board.length := by rw [hb.1]; exact hr
  have hcols : (board[r]).length = COLUMNS := (hb.2 _ (List.getElem_mem _)).1
  have hrow : board.getD r [] = board[r] := by
    simp [List.getD_eq_getElem?_getD, List.getElem?_eq_getElem hlen]
  unfold rowFull FullRow
  simp only [boardAt_nat, hrow, List.all_eq_true, bne_iff_ne, ne_eq]
  constructor
  · intro h c hc
    have hc2 : c < (board[r]).length := by rw [hcols]; exact hc
    have := h (board[r])[c] (List.getElem_mem _)
    simpa [List.getD_eq_getElem?_getD, List.getElem?_eq_getElem hc2] using this
  · intro h cell hcell
    obtain ⟨c, hc, hget⟩ := List.getElem_of_mem hcell
    have := h c (by rw [← hcols]; exact hc)
    simpa [List.getD_eq_getElem?_getD, List.getElem?_eq_getElem hc, hget] using this

theorem mem_findCompletedLines (board : Board) (hb : IsBoard board) (r : Nat) :
    r ∈ findCompletedLines board ↔ r < ROWS ∧ FullRow board r := by
  unfold findCompletedLines
  simp only [List.mem_filter, List.mem_reverse, List.mem_range]
  constructor
  · rintro ⟨hr, hf⟩
    exact ⟨hr, (rowFull_iff board hb r hr).1 hf⟩
  · rintro ⟨hr, hf⟩
    exact ⟨hr, (rowFull_iff board hb r hr).2 hf⟩

theorem nodup_findCompletedLines (board : Board) : (findCompletedLines board).Nodup := by
  unfold findCompletedLines
  exact (List.nodup_reverse.2 (List.nodup_range ROWS)).filter _

theorem length_findCompletedLines (board : Board) (hb : IsBoard board) :
    (findCompletedLines board).length =
      ((Finset.range ROWS).filter fun r => FullRow board r).card := by
  rw [← List.toFinset_card_of_nodup (nodup_findCompletedLines board)]
  congr 1
  ext r
  simp [mem_findCompletedLines board hb r]

/-! ## Closed forms of the state transformers -/

theorem checkCompletedLines_eq (s : State) :
    checkCompletedLines s =
      { s with
        completedLines := findCompletedLines s.board
        score := s.score + (findCompletedLines s.board).length * 100
        pendingCompactions := s.pendingCompactions +
          (if (findCompletedLines s.board).length > 0 then 1 else 0) } := by
  unfold checkCompletedLines
  by_cases h : (findCompletedLines s.board).length > 0
  · simp [h]
  · have h0 : (findCompletedLines s.board).length = 0 := by omega
    simp [h0]

theorem generateNewShape_eq (s : State) (rnd : Fin 7) (row0 : List Nat) (rest : Shape)
    (h : s.nextShape = row0 :: rest) :
    generateNewShape s rnd =
      some { s with
        currentShape := row0 :: rest
        currentColor := s.nextColor
        currentPosition := spawnPosition row0
        nextShape := SHAPES.getD rnd.val []
        nextColor := COLORS.getD rnd.val ""
        gameOver := s.gameOver || collision s.board (spawnPosition row0) (row0 :: rest) } := by
  unfold generateNewShape
  rw [h]
  simp only
  by_cases hcol : collision s.board (spawnPosition row0) (row0 :: rest) = true
  · simp [hcol]
  · simp only [Bool.not_eq_true] at hcol
    simp [hcol]

theorem movePiece_lock (s : State) (dx dy : Int) (rnd : Fin 7) (b1 : Board)
    (hcol : collision s.board { x := s.currentPosition.x + dx, y := s.currentPosition.y + dy }
      s.currentShape = true)
    (hdy : dy > 0)
    (hplace : placeOnBoard s.board s.currentShape s.currentPosition s.currentColor = some b1)
    (s3 : State)
    (hgen : generateNewShape (checkCompletedLines { s with board := b1 }) rnd = some s3) :
    movePiece s dx dy rnd = some (false, s3) := by
  simp [movePiece, hcol, hdy, placePiece, hplace, hgen]

/-! ## Rotation, characterised entry by entry -/

theorem setEntry_spec (M : Shape) (a b : Nat) (hM : IsRect M a b) (i j v : Nat)
    (hi : i < a) (hj : j < b) :
    IsRect (setEntry M i j v) a b ∧
      ∀ p q, shapeAt (setEntry M i j v) p q = if p = i ∧ q = j then v else shapeAt M p q := by
  have hlen : i < M.length := by rw [hM.1]; exact hi
  have hrow : M.getD i [] = M[i] := by
    simp [List.getD_eq_getElem?_getD, List.getElem?_eq_getElem hlen]
  have hcols : (M[i]).length = b := hM.2 _ (List.getElem_mem _)
  unfold setEntry
  rw [hrow]
  constructor
  · refine ⟨by simpa using hM.1, fun row hmem => ?_⟩
    rcases List.mem_or_eq_of_mem_set hmem with h | h
    · exact hM.2 row h
    · rw [h]; simpa using hcols
  · intro p q
    unfold shapeAt
    simp only [List.getD_eq_getElem?_getD, List.getElem?_set]
    by_cases h1 : i = p
    · subst h1
      simp only [if_true, hlen, Option.getD_some, List.getElem?_set, true_and]
      by_cases h2 : j = q
      · subst h2
        simp [hcols, hj]
      · have h3 : ¬ q = j := fun h => h2 h.symm
        simp [h2, h3, List.getElem?_eq_getElem hlen]
    · have h3 : ¬ p = i := fun h => h1 h.symm
      simp [h1, h3]

theorem rotate_inner (matrix : Shape) (a b r j : Nat) (hj : j < b) :
    ∀ n, n ≤ a → ∀ M, IsRect M a b →
      IsRect ((List.range n).foldl (fun m c => setEntry m c j (shapeAt matrix r c)) M) a b ∧
      ∀ p q, shapeAt ((List.range n).foldl
          (fun m c => setEntry m c j (shapeAt matrix r c)) M) p q =
        if p < n ∧ q = j then shapeAt matrix r p else shapeAt M p q := by
  intro n
  induction n with
  | zero =>
    intro _ M hM
    exact ⟨by simpa using hM, fun p q => by simp⟩
  | succ n ih =>
    intro hn M hM
    obtain ⟨hR, hcells⟩ := ih (by omega) M hM
    rw [List.range_succ, List.foldl_append]
    simp only [List.foldl_cons, List.foldl_nil]
    obtain ⟨hR2, hcells2⟩ := setEntry_spec _ a b hR n j (shapeAt matrix r n) (by omega) hj
    refine ⟨hR2, fun p q => ?_⟩
    rw [hcells2 p q, hcells p q]
    by_cases h1 : p = n ∧ q = j
    · obtain ⟨rfl, rfl⟩ := h1
      simp
    · by_cases h2 : p < n ∧ q = j
      · have h3 : p < n + 1 ∧ q = j := ⟨by omega, h2.2⟩
        rw [if_neg h1, if_pos h2, if_pos h3]
      · have h3 : ¬ (p < n + 1 ∧ q = j) := by
          rintro ⟨h4, h5⟩
          by_cases h6 : p = n
          · exact h1 ⟨h6, h5⟩
          · exact h2 ⟨by omega, h5⟩
        rw [if_neg h1, if_neg h2, if_neg h3]

theorem rotate_outer (matrix : Shape) (rows cols : Nat) :
    ∀ n, n ≤ rows → ∀ M, IsRect M cols rows →
      IsRect ((List.range n).foldl (fun m r =>
        (List.range cols).foldl (fun m c =>
          setEntry m c (rows - 1 - r) (shapeAt matrix r c)) m) M) cols rows ∧
      ∀ p q, p < cols → q < rows →
        shapeAt ((List.range n).foldl (fun m r =>
          (List.range cols).foldl (fun m c =>
            setEntry m c (rows - 1 - r) (shapeAt matrix r c)) m) M) p q =
        if rows - 1 - q < n then shapeAt matrix (rows - 1 - q) p else shapeAt M p q := by
  intro n
  induction n with
  | zero =>
    intro _ M hM
    exact ⟨by simpa using hM, fun p q _ _ => by simp⟩
  | succ n ih =>
    intro hn M hM
    obtain ⟨hR, hcells⟩ := ih (by omega) M hM
    rw [List.range_succ, List.foldl_append]
    simp only [List.foldl_cons, List.foldl_nil]
    obtain ⟨hR2, hcells2⟩ :=
      rotate_inner matrix cols rows n (rows - 1 - n) (by omega) cols (le_refl _) _ hR
    refine ⟨hR2, fun p q hp hq => ?_⟩
    rw [hcells2 p q]
    by_cases h1 : q = rows - 1 - n
    · have h2 : rows - 1 - q = n := by omega
      have h3 : rows - 1 - q < n + 1 := by omega
      simp only [hp, h1, and_self, if_true]
      rw [← h1, h2]
      simp
    · have h2 : ¬ (p < cols ∧ q = rows - 1 - n) := fun h => h1 h.2
      rw [if_neg h2, hcells p q hp hq]
      by_cases h3 : rows - 1 - q < n
      · have h4 : rows - 1 - q < n + 1 := by omega
        rw [if_pos h3, if_pos h4]
      · have h4 : ¬ rows - 1 - q < n + 1 := by omega
        rw [if_neg h3, if_neg h4]

theorem isRect_replicate (a b : Nat) : IsRect (List.replicate a (List.replicate b 0)) a b := by
  refine ⟨by simp, fun row hrow => ?_⟩
  rw [(List.mem_replicate.1 hrow).2]
  simp

theorem rotateMatrix_entries (matrix : Shape) (rows cols : Nat) (hr : 1 ≤ rows)
    (hrect : IsRect matrix rows cols) :
    ∃ R, rotateMatrix matrix = some R ∧ IsRect R cols rows ∧
      ∀ p q, p < cols → q < rows → shapeAt R p q = shapeAt matrix (rows - 1 - q) p := by
  cases hm : matrix with
  | nil =>
    rw [hm] at hrect
    have := hrect.1
    simp at this
    omega
  | cons row0 rest =>
    have hrows : (row0 :: rest).length = rows := by rw [← hm]; exact hrect.1
    have hcols : row0.length = cols := hrect.2 row0 (by rw [hm]; simp)
    obtain ⟨hR, hcells⟩ :=
      rotate_outer (row0 :: rest) rows cols rows (le_refl _) _ (isRect_replicate cols rows)
    refine ⟨_, ?_, hR, fun p q hp hq => ?_⟩
    · simp only [rotateMatrix, hrows, hcols]
    · rw [hcells p q hp hq]
      have : rows - 1 - q < rows := by omega
      simp [this]

theorem isRect_ext (A B : Shape) (a b : Nat) (hA : IsRect A a b) (hB : IsRect B a b)
    (h : ∀ p q, p < a → q < b → shapeAt A p q = shapeAt B p q) : A = B := by
  apply List.ext_getElem (by rw [hA.1, hB.1])
  intro p hp1 hp2
  have hAl : (A[p]).length = b := hA.2 _ (List.getElem_mem _)
  have hBl : (B[p]).length = b := hB.2 _ (List.getElem_mem _)
  apply List.ext_getElem (by rw [hAl, hBl])
  intro q hq1 hq2
  have := h p q (by rw [← hA.1]; exact hp1) (by rw [← hAl]; exact hq1)
  unfold shapeAt at this
  simpa [List.getD_eq_getElem?_getD, List.getElem?_eq_getElem, hp1, hp2, hq1, hq2] using this

/-! ## One tick with only the left button held -/

theorem gameLoop_left_waits (s : State) (time : ℚ) (rndDown rndFall : Fin 7)
    (hover : s.gameOver = false) (hpause : s.isPaused = false)
    (hspeed : ¬ time - s.lastSpeedIncreaseTime > SPEED_INCREASE_INTERVAL)
    (hright : s.mobileButtons.right = false) (hup : s.mobileButtons.up = false)
    (hdown : s.mobileButtons.down = false)
    (hwait : canMove s time = false)
    (hfall : ¬ s.dropCounter + (time - s.lastTime) > s.fallSpeed) :
    gameLoop s time rndDown rndFall =
      some { s with lastTime := time, dropCounter := s.dropCounter + (time - s.lastTime) } := by
  simp only [canMove, decide_eq_false_iff_not] at hwait
  simp [gameLoop, heldMove, heldRotate, autoFall, canMove, hover, hpause, hspeed, hright, hup,
    hdown, hwait, hfall]

theorem gameLoop_left_moves (s : State) (time : ℚ) (rndDown rndFall : Fin 7)
    (hover : s.gameOver = false) (hpause : s.isPaused = false)
    (hspeed : ¬ time - s.lastSpeedIncreaseTime > SPEED_INCREASE_INTERVAL)
    (hleft : s.mobileButtons.left = true)
    (hright : s.mobileButtons.right = false) (hup : s.mobileButtons.up = false)
    (hdown : s.mobileButtons.down = false)
    (hgo : canMove s time = true)
    (hfree : collision s.board { x := s.currentPosition.x + -1, y := s.currentPosition.y + 0 }
      s.currentShape = false)
    (hfall : ¬ s.dropCounter + (time - s.lastTime) > s.fallSpeed) :
    gameLoop s time rndDown rndFall =
      some { s with
        lastTime := time
        currentPosition := { x := s.currentPosition.x + -1, y := s.currentPosition.y + 0 }
        lastMoveTime := time
        dropCounter := s.dropCounter + (time - s.lastTime) } := by
  simp only [canMove, decide_eq_true_eq] at hgo
  simp only [add_zero] at hfree
  simp [gameLoop, heldMove, heldRotate, autoFall, movePiece, canMove, hover, hpause, hspeed,
    hleft, hright, hup, hdown, hgo, hfree, hfall]

/-! ## Row shifts of the deferred compaction -/

theorem length_shiftDown (r : Nat) : ∀ board : Board, (shiftDown r board).length = board.length := by
  induction r with
  | zero => intro board; rfl
  | succ y ih =>
    intro board
    simp [shiftDown, ih]

theorem getElem?_shiftDown (r : Nat) :
    ∀ (board : Board), r < board.length → ∀ i,
      (shiftDown r board)[i]? = if 1 ≤ i ∧ i ≤ r then board[i - 1]? else board[i]? := by
  induction r with
  | zero =>
    intro board _ i
    have h : ¬ (1 ≤ i ∧ i ≤ 0) := by omega
    rw [if_neg h]
    rfl
  | succ y ih =>
    intro board hlen i
    have hy : y < board.length := by omega
    have hrow : board.getD y [] = board[y] := by
      simp [List.getD_eq_getElem?_getD, List.getElem?_eq_getElem hy]
    have hlen2 : y < (board.set (y + 1) (board.getD y [])).length := by simpa using hy
    simp only [shiftDown]
    rw [ih _ hlen2 i]
    simp only [List.getElem?_set, hrow]
    by_cases h1 : 1 ≤ i ∧ i ≤ y
    · have h2 : 1 ≤ i ∧ i ≤ y + 1 := ⟨h1.1, by omega⟩
      have h3 : ¬ y + 1 = i - 1 := by omega
      rw [if_pos h1, if_pos h2, if_neg h3]
    · rw [if_neg h1]
      by_cases h4 : y + 1 = i
      · have h2 : 1 ≤ i ∧ i ≤ y + 1 := by omega
        rw [if_pos h4, if_pos hlen, if_pos h2]
        subst h4
        simp [List.getElem?_eq_getElem hy]
      · have h2 : ¬ (1 ≤ i ∧ i ≤ y + 1) := by omega
        rw [if_neg h4, if_neg h2]

theorem getD_clearLine (board : Board) (r : Nat) (hr : r < board.length) (i : Nat) :
    (clearLine board r).getD i [] =
      if i = 0 then emptyRow
      else if i ≤ r then board.getD (i - 1) [] else board.getD i [] := by
  unfold clearLine
  have hpos : 0 < (shiftDown r board).length := by rw [length_shiftDown]; omega
  simp only [List.getD_eq_getElem?_getD, List.getElem?_set, getElem?_shiftDown r board hr]
  by_cases h0 : i = 0
  · subst h0
    simp [hpos, emptyRow]
  · have h1 : ¬ 0 = i := fun h => h0 h.symm
    rw [if_neg h1, if_neg h0]
    by_cases h2 : i ≤ r
    · have h3 : 1 ≤ i ∧ i ≤ r := ⟨by omega, h2⟩
      rw [if_pos h3, if_pos h2]
    · have h3 : ¬ (1 ≤ i ∧ i ≤ r) := fun h => h2 h.2
      rw [if_neg h3, if_neg h2]

theorem isBoard_clearLine (board : Board) (hb : IsBoard board) (r : Nat) :
    IsBoard (clearLine board r) := by
  have hshift : ∀ (y : Nat) (b : Board), IsBoard b → IsBoard (shiftDown y b) := by
    intro y
    induction y with
    | zero => intro b h; exact h
    | succ y ih =>
      intro b h
      simp only [shiftDown]
      apply ih
      refine ⟨by simpa using h.1, fun row hrow => ?_⟩
      rcases List.mem_or_eq_of_mem_set hrow with h1 | h1
      · exact h.2 row h1
      · by_cases hy : y < b.length
        · have : b.getD y [] = b[y] := by
            simp [List.getD_eq_getElem?_getD, List.getElem?_eq_getElem hy]
          rw [h1, this]
          exact h.2 _ (List.getElem_mem _)
        · exfalso
          have hlen : b.length ≤ y + 1 := by omega
          rw [List.set_eq_of_length_le hlen] at hrow
          have h2 := (h.2 row hrow).1
          rw [h1] at h2
          simp [List.getD_eq_getElem?_getD, List.getElem?_eq_none (by omega : b.length ≤ y),
            COLUMNS] at h2
  have h1 := hshift r board hb
  unfold clearLine
  refine ⟨by simpa using h1.1, fun row hrow => ?_⟩
  rcases List.mem_or_eq_of_mem_set hrow with h2 | h2
  · exact h1.2 row h2
  · rw [h2]
    refine ⟨by simp [COLUMNS], fun cell hcell => ?_⟩
    rw [(List.mem_replicate.1 hcell).2]
    simp

theorem isBoard_compactBoard (lines : List Nat) :
    ∀ board : Board, IsBoard board → IsBoard (compactBoard board lines) := by
  induction lines with
  | nil => intro board h; exact h
  | cons r rest ih =>
    intro board h
    exact ih _ (isBoard_clearLine board h r)

theorem eq_singleton_of_nodup (l : List Nat) (r : Nat) (hnd : l.Nodup)
    (hmem : ∀ x, x ∈ l ↔ x = r) : l = [r] := by
  match l, hnd, hmem with
  | [], _, hmem => exact absurd ((hmem r).2 rfl) (by simp)
  | [a], _, hmem =>
    have := (hmem a).1 (by simp)
    rw [this]
  | a :: b :: rest, hnd, hmem =>
    have ha := (hmem a).1 (by simp)
    have hb2 := (hmem b).1 (by simp)
    have hab : a ≠ b := by
      intro h
      have := (List.nodup_cons.1 hnd).1
      rw [h] at this
      simp at this
    exact absurd (ha.trans hb2.symm) hab

/-! ## Collision, characterised cell by cell -/

theorem collision_eq_true_iff (board : Board) (hb : IsBoard board) (pos : Position)
    (shape : Shape) :
    collision board pos shape = true ↔
      ∃ r c, Occupied shape r c ∧
        (pos.x + c < 0 ∨ pos.x + c ≥ COLUMNS ∨ pos.y + r ≥ ROWS ∨
          (pos.y + r ≥ 0 ∧ boardAt board (pos.y + r) (pos.x + c) ≠ none)) := by
  unfold collision
  simp only [List.any_eq_true, List.mem_range, Bool.and_eq_true, bne_iff_ne, ne_eq]
  constructor
  · rintro ⟨r, hr, c, hc, hv, hcol⟩
    refine ⟨r, c, ⟨hr, hc, hv⟩, ?_⟩
    unfold cellCollides at hcol
    simp only [Bool.or_eq_true, Bool.and_eq_true, decide_eq_true_eq] at hcol
    rcases hcol with ((h | h) | h) | ⟨h1, h2⟩
    · exact Or.inl h
    · exact Or.inr (Or.inl h)
    · exact Or.inr (Or.inr (Or.inl h))
    · exact Or.inr (Or.inr (Or.inr ⟨h1, (truthy_boardAt board hb _ _).1 h2⟩))
  · rintro ⟨r, c, ⟨hr, hc, hv⟩, hcol⟩
    refine ⟨r, hr, c, hc, hv, ?_⟩
    unfold cellCollides
    simp only [Bool.or_eq_true, Bool.and_eq_true, decide_eq_true_eq]
    rcases hcol with h | h | h | ⟨h1, h2⟩
    · exact Or.inl (Or.inl (Or.inl h))
    · exact Or.inl (Or.inl (Or.inr h))
    · exact Or.inl (Or.inr h)
    · exact Or.inr ⟨h1, (truthy_boardAt board hb _ _).2 h2⟩

/-! ## The descent of a hard drop -/

theorem inGrid_of_not_collision (board : Board) (hb : IsBoard board) (pos : Position)
    (shape : Shape) (h : collision board pos shape = false) : InGrid shape pos := by
  intro r c hocc hy
  by_contra hcon
  have hcol : collision board pos shape = true := by
    rw [collision_eq_true_iff board hb]
    refine ⟨r, c, hocc, ?_⟩
    by_cases h1 : pos.x + c < 0
    · exact Or.inl h1
    · by_cases h2 : pos.x + c ≥ COLUMNS
      · exact Or.inr (Or.inl h2)
      · refine Or.inr (Or.inr (Or.inl ?_))
        by_contra h3
        exact hcon ⟨by omega, by omega, by omega⟩
  rw [h] at hcol
  cases hcol

theorem movePiece_free (s : State) (dx dy : Int) (rnd : Fin 7)
    (h : collision s.board { x := s.currentPosition.x + dx, y := s.currentPosition.y + dy }
      s.currentShape = false) :
    movePiece s dx dy rnd = some (true, { s with
      currentPosition := { x := s.currentPosition.x + dx, y := s.currentPosition.y + dy } }) := by
  simp [movePiece, h]

theorem movePiece_lands (s : State) (rnd : Fin 7) (hwf : WellFormed s)
    (hcol : collision s.board { x := s.currentPosition.x + 0, y := s.currentPosition.y + 1 }
      s.currentShape = true) :
    ∃ s1, movePiece s 0 1 rnd = some (false, s1) ∧
      placeOnBoard s.board s.currentShape s.currentPosition s.currentColor = some s1.board := by
  obtain ⟨hb, hc, hin, hnext⟩ := hwf
  obtain ⟨b1, hb1, _, _⟩ :=
    placeOnBoard_spec s.board hb s.currentShape s.currentPosition s.currentColor hc hin
  obtain ⟨row0, rest, hns⟩ := List.exists_cons_of_ne_nil hnext
  have hns2 : (checkCompletedLines { s with board := b1 }).nextShape = row0 :: rest := by
    rw [checkCompletedLines_eq]; exact hns
  have hgen := generateNewShape_eq (checkCompletedLines { s with board := b1 }) rnd row0 rest
    hns2
  refine ⟨_, movePiece_lock s 0 1 rnd b1 hcol (by decide) hb1 _ hgen, ?_⟩
  rw [checkCompletedLines_eq]
  exact hb1

theorem hardDrop_descends (rnd : Fin 7) :
    ∀ (m : Nat) (s : State), WellFormed s →
      (∃ r c, Occupied s.currentShape r c ∧
        (ROWS : Int) ≤ s.currentPosition.y + r + 1 + m) →
      ∃ k s1, k ≤ m ∧
        (∀ j : Nat, j < k →
          collision s.board { x := s.currentPosition.x, y := s.currentPosition.y + (j + 1 : Nat) }
            s.currentShape = false) ∧
        collision s.board { x := s.currentPosition.x, y := s.currentPosition.y + (k + 1 : Nat) }
          s.currentShape = true ∧
        placeOnBoard s.board s.currentShape
          { x := s.currentPosition.x, y := s.currentPosition.y + (k : Nat) } s.currentColor =
            some s1.board ∧
        movePiece { s with currentPosition :=
          { x := s.currentPosition.x, y := s.currentPosition.y + (k : Nat) } } 0 1 rnd =
            some (false, s1) ∧
        hardDrop k s rnd = none ∧
        ∀ fuel, k + 1 ≤ fuel → hardDrop fuel s rnd = some s1 := by
  intro m
  induction m with
  | zero =>
    intro s hwf ⟨r, c, hocc, hm⟩
    have hcol : collision s.board
        { x := s.currentPosition.x + 0, y := s.currentPosition.y + 1 } s.currentShape = true := by
      rw [collision_eq_true_iff s.board hwf.1]
      refine ⟨r, c, hocc, Or.inr (Or.inr (Or.inl ?_))⟩
      simp only [ROWS] at hm ⊢
      push_cast at hm ⊢
      omega
    obtain ⟨s1, hmove, hplace⟩ := movePiece_lands s rnd hwf hcol
    have hpos : ({ x := s.currentPosition.x, y := s.currentPosition.y + ((0 : Nat) : Int) }
        : Position) = s.currentPosition := by simp
    refine ⟨0, s1, le_refl _, fun j hj => absurd hj (by omega), ?_, ?_, ?_, rfl, ?_⟩
    · simpa using hcol
    · rw [hpos]; exact hplace
    · rw [hpos]; exact hmove
    · intro fuel hfuel
      obtain ⟨n, rfl⟩ : ∃ n, fuel = n + 1 := ⟨fuel - 1, by omega⟩
      simp [hardDrop, hmove]
  | succ m ih =>
    intro s hwf ⟨r, c, hocc, hm⟩
    by_cases hcol : collision s.board
        { x := s.currentPosition.x + 0, y := s.currentPosition.y + 1 } s.currentShape = true
    · obtain ⟨s1, hmove, hplace⟩ := movePiece_lands s rnd hwf hcol
      have hpos : ({ x := s.currentPosition.x, y := s.currentPosition.y + ((0 : Nat) : Int) }
          : Position) = s.currentPosition := by simp
      refine ⟨0, s1, Nat.zero_le _, fun j hj => absurd hj (by omega), ?_, ?_, ?_, rfl, ?_⟩
      · simpa using hcol
      · rw [hpos]; exact hplace
      · rw [hpos]; exact hmove
      · intro fuel hfuel
        obtain ⟨n, rfl⟩ : ∃ n, fuel = n + 1 := ⟨fuel - 1, by omega⟩
        simp [hardDrop, hmove]
    · simp only [Bool.not_eq_true] at hcol
      have hmove := movePiece_free s 0 1 rnd hcol
      have hwf2 : WellFormed { s with currentPosition :=
          { x := s.currentPosition.x + 0, y := s.currentPosition.y + 1 } } :=
        ⟨hwf.1, hwf.2.1, inGrid_of_not_collision s.board hwf.1 _ _ hcol, hwf.2.2.2⟩
      obtain ⟨k, s1, hk, hfree, hstop, hplace, hlast, hnone, hfuel⟩ :=
        ih { s with currentPosition :=
          { x := s.currentPosition.x + 0, y := s.currentPosition.y + 1 } } hwf2
          ⟨r, c, hocc, by simp only; push_cast at hm ⊢; omega⟩
      simp only at hfree hstop hplace hlast
      have e1 : ∀ n : Nat,
          ({ x := s.currentPosition.x + 0, y := s.currentPosition.y + 1 + (n : Int) } : Position) =
          { x := s.currentPosition.x, y := s.currentPosition.y + ((n + 1 : Nat) : Int) } := by
        intro n
        congr 1
        · omega
        · push_cast; omega
      refine ⟨k + 1, s1, by omega, ?_, ?_, ?_, ?_, ?_, ?_⟩
      · intro j hj
        cases j with
        | zero => simpa using hcol
        | succ j =>
          have := hfree j (by omega)
          rw [e1] at this
          exact this
      · rw [← e1]; exact hstop
      · rw [← e1]; exact hplace
      · rw [← e1]; exact hlast
      · simp only [hardDrop, hmove]
        exact hnone
      · intro fuel hf
        obtain ⟨n, rfl⟩ : ∃ n, fuel = n + 1 := ⟨fuel - 1, by omega⟩
        simp only [hardDrop, hmove]
        exact hfuel n (by omega)

/-! ## The invariant of the game states -/

theorem shapes_spawn (k : Fin 7) :
    ∃ row0 rest, SHAPES.getD k.val [] = row0 :: rest ∧
      InGrid (row0 :: rest) (spawnPosition row0) ∧ ShapeOk (row0 :: rest) ∧
      COLORS.getD k.val "" ≠ "" := by
  fin_cases k
  · exact ⟨_, _, rfl, by decide, ⟨2, 3, by decide, by decide, by decide⟩, by decide⟩
  · exact ⟨_, _, rfl, by decide, ⟨2, 2, by decide, by decide, by decide⟩, by decide⟩
  · exact ⟨_, _, rfl, by decide, ⟨2, 3, by decide, by decide, by decide⟩, by decide⟩
  · exact ⟨_, _, rfl, by decide, ⟨2, 3, by decide, by decide, by decide⟩, by decide⟩
  · exact ⟨_, _, rfl, by decide, ⟨1, 4, by decide, by decide, by decide⟩, by decide⟩
  · exact ⟨_, _, rfl, by decide, ⟨2, 3, by decide, by decide, by decide⟩, by decide⟩
  · exact ⟨_, _, rfl, by decide, ⟨2, 3, by decide, by decide, by decide⟩, by decide⟩

theorem findCompletedLines_lt (board : Board) : ∀ r ∈ findCompletedLines board, r < ROWS := by
  intro r hr
  unfold findCompletedLines at hr
  simp only [List.mem_filter, List.mem_reverse, List.mem_range] at hr
  exact hr.1

theorem generateNewShape_inv (s : State) (rnd : Fin 7) (hb : IsBoard s.board)
    (hnext : NextOk s) (hlines : ∀ r ∈ s.completedLines, r < ROWS) :
    ∃ s1, generateNewShape s rnd = some s1 ∧ Inv s1 ∧ SameSpeed s s1 ∧
      s1.board = s.board ∧ s1.score = s.score ∧ s1.isPaused = s.isPaused := by
  obtain ⟨k, hshape, hcolor⟩ := hnext
  obtain ⟨row0, rest, hk, hin, hok, hne⟩ := shapes_spawn k
  have hns : s.nextShape = row0 :: rest := by rw [hshape, hk]
  refine ⟨_, generateNewShape_eq s rnd row0 rest hns, ?_, ⟨rfl, rfl⟩, rfl, rfl, rfl⟩
  refine ⟨hb, ?_, hin, ⟨rnd, rfl, rfl⟩, hok, hlines⟩
  show s.nextColor ≠ ""
  rw [hcolor]
  exact hne

theorem movePiece_inv (s : State) (dx dy : Int) (rnd : Fin 7) (hinv : Inv s) :
    ∃ b s1, movePiece s dx dy rnd = some (b, s1) ∧ Inv s1 ∧ SameSpeed s s1 ∧
      s1.isPaused = s.isPaused := by
  obtain ⟨hb, hc, hin, hnext, hok, hlines⟩ := hinv
  by_cases hcol : collision s.board
      { x := s.currentPosition.x + dx, y := s.currentPosition.y + dy } s.currentShape = true
  · by_cases hdy : dy > 0
    · obtain ⟨b1, hb1, hB1, _⟩ :=
        placeOnBoard_spec s.board hb s.currentShape s.currentPosition s.currentColor hc hin
      have hnext2 : NextOk (checkCompletedLines { s with board := b1 }) := by
        rw [checkCompletedLines_eq]; exact hnext
      have hB2 : IsBoard (checkCompletedLines { s with board := b1 }).board := by
        rw [checkCompletedLines_eq]; exact hB1
      have hlines2 : ∀ r ∈ (checkCompletedLines { s with board := b1 }).completedLines,
          r < ROWS := by
        rw [checkCompletedLines_eq]; exact findCompletedLines_lt b1
      obtain ⟨s3, hgen, hinv3, hspeed, _, _, hp⟩ :=
        generateNewShape_inv (checkCompletedLines { s with board := b1 }) rnd hB2 hnext2
          hlines2
      refine ⟨false, s3, movePiece_lock s dx dy rnd b1 hcol hdy hb1 s3 hgen, hinv3, ?_, ?_⟩
      · rw [checkCompletedLines_eq] at hspeed
        exact hspeed
      · rw [checkCompletedLines_eq] at hp
        exact hp
    · exact ⟨false, s, by simp [movePiece, hcol, hdy], ⟨hb, hc, hin, hnext, hok, hlines⟩,
        ⟨rfl, rfl⟩, rfl⟩
  · simp only [Bool.not_eq_true] at hcol
    exact ⟨true, _, movePiece_free s dx dy rnd hcol,
      ⟨hb, hc, inGrid_of_not_collision s.board hb _ _ hcol, hnext, hok, hlines⟩,
      ⟨rfl, rfl⟩, rfl⟩

theorem rotatePiece_inv (s : State) (hinv : Inv s) :
    ∃ s1, rotatePiece s = some s1 ∧ Inv s1 ∧ SameSpeed s s1 ∧ s1.isPaused = s.isPaused := by
  obtain ⟨hb, hc, hin, hnext, ⟨rows, cols, hr, hcl, hrect⟩, hlines⟩ := hinv
  obtain ⟨R, hR, hRrect, _⟩ := rotateMatrix_entries s.currentShape rows cols hr hrect
  by_cases hcol : collision s.board s.currentPosition R = true
  · exact ⟨s, by simp [rotatePiece, hR, hcol],
      ⟨hb, hc, hin, hnext, ⟨rows, cols, hr, hcl, hrect⟩, hlines⟩, ⟨rfl, rfl⟩, rfl⟩
  · simp only [Bool.not_eq_true] at hcol
    exact ⟨{ s with currentShape := R }, by simp [rotatePiece, hR, hcol],
      ⟨hb, hc, inGrid_of_not_collision s.board hb _ _ hcol, hnext,
        ⟨cols, rows, hcl, hr, hRrect⟩, hlines⟩, ⟨rfl, rfl⟩, rfl⟩

theorem hardDrop_inv (rnd : Fin 7) :
    ∀ (fuel : Nat) (s s1 : State), Inv s → hardDrop fuel s rnd = some s1 →
      Inv s1 ∧ SameSpeed s s1 ∧ s1.isPaused = s.isPaused := by
  intro fuel
  induction fuel with
  | zero =>
    intro s s1 _ h
    simp [hardDrop] at h
  | succ n ih =>
    intro s s1 hinv h
    obtain ⟨b, s2, hmove, hinv2, hspeed, hp⟩ := movePiece_inv s 0 1 rnd hinv
    cases b with
    | true =>
      simp only [hardDrop, hmove] at h
      obtain ⟨h1, h2, h3⟩ := ih s2 s1 hinv2 h
      exact ⟨h1, ⟨h2.1.trans hspeed.1, h2.2.trans hspeed.2⟩, h3.trans hp⟩
    | false =>
      simp only [hardDrop, hmove, Option.some.injEq] at h
      rw [← h]
      exact ⟨hinv2, hspeed, hp⟩

theorem heldMove_inv (held : Bool) (dx dy : Int) (time : ℚ) (rnd : Fin 7) (s : State)
    (hinv : Inv s) :
    ∃ s1, heldMove held dx dy time rnd s = some s1 ∧ Inv s1 ∧ SameSpeed s s1 := by
  unfold heldMove
  by_cases h : (held && canMove s time) = true
  · obtain ⟨b, s2, hmove, hinv2, hspeed, _⟩ := movePiece_inv s dx dy rnd hinv
    rw [if_pos h, hmove]
    exact ⟨_, rfl, hinv2, hspeed⟩
  · rw [if_neg h]
    exact ⟨s, rfl, hinv, ⟨rfl, rfl⟩⟩

theorem heldRotate_inv (time : ℚ) (s : State) (hinv : Inv s) :
    ∃ s1, heldRotate time s = some s1 ∧ Inv s1 ∧ SameSpeed s s1 := by
  unfold heldRotate
  by_cases h : (s.mobileButtons.up && canMove s time) = true
  · obtain ⟨s2, hrot, hinv2, hspeed, _⟩ := rotatePiece_inv s hinv
    rw [if_pos h, hrot]
    exact ⟨_, rfl, hinv2, hspeed⟩
  · rw [if_neg h]
    exact ⟨s, rfl, hinv, ⟨rfl, rfl⟩⟩

theorem autoFall_inv (deltaTime : ℚ) (rnd : Fin 7) (s : State) (hinv : Inv s) :
    ∃ s1, autoFall deltaTime rnd s = some s1 ∧ Inv s1 ∧ SameSpeed s s1 := by
  unfold autoFall
  simp only
  by_cases h : s.dropCounter + deltaTime > s.fallSpeed
  · obtain ⟨b, s2, hmove, hinv2, hspeed, _⟩ :=
      movePiece_inv { s with dropCounter := s.dropCounter + deltaTime } 0 1 rnd hinv
    rw [if_pos h, hmove]
    exact ⟨_, rfl, hinv2, hspeed⟩
  · rw [if_neg h]
    exact ⟨_, rfl, hinv, ⟨rfl, rfl⟩⟩

theorem gameLoop_running (s : State) (time : ℚ) (rndDown rndFall : Fin 7)
    (hover : s.gameOver = false) (hpause : s.isPaused = false) :
    gameLoop s time rndDown rndFall =
      (heldMove (rampedState s time).mobileButtons.left (-1) 0 time rndDown
        (rampedState s time)).bind fun s3 =>
      (heldMove s3.mobileButtons.right 1 0 time rndDown s3).bind fun s4 =>
      (heldRotate time s4).bind fun s5 =>
      (heldMove s5.mobileButtons.down 0 1 time rndDown s5).bind fun s6 =>
      autoFall (time - s.lastTime) rndFall s6 := by
  have h1 : ¬ (s.gameOver = true) := by simp [hover]
  have h2 : ¬ (s.isPaused = true) := by simp [hpause]
  unfold gameLoop
  rw [if_neg h1, if_neg h2]
  rfl

theorem inv_rampedState (s : State) (time : ℚ) (hinv : Inv s) : Inv (rampedState s time) := by
  unfold rampedState
  simp only
  split
  · exact hinv
  · exact hinv

theorem gameLoop_inv (s : State) (time : ℚ) (rndDown rndFall : Fin 7) (hinv : Inv s) :
    ∃ s1, gameLoop s time rndDown rndFall = some s1 ∧ Inv s1 ∧
      ((s.gameOver = true ∨ s.isPaused = true) → s1 = s) ∧
      (s.gameOver = false → s.isPaused = false → SameSpeed (rampedState s time) s1) := by
  by_cases hover : s.gameOver = true
  · refine ⟨s, by simp [gameLoop, hover], hinv, fun _ => rfl, fun h => ?_⟩
    rw [hover] at h
    cases h
  · by_cases hpause : s.isPaused = true
    · refine ⟨s, by simp [gameLoop, hover, hpause], hinv, fun _ => rfl, fun _ h => ?_⟩
      rw [hpause] at h
      cases h
    · simp only [Bool.not_eq_true] at hover hpause
      obtain ⟨s3, h3, i3, p3⟩ := heldMove_inv (rampedState s time).mobileButtons.left (-1) 0
        time rndDown (rampedState s time) (inv_rampedState s time hinv)
      obtain ⟨s4, h4, i4, p4⟩ := heldMove_inv s3.mobileButtons.right 1 0 time rndDown s3 i3
      obtain ⟨s5, h5, i5, p5⟩ := heldRotate_inv time s4 i4
      obtain ⟨s6, h6, i6, p6⟩ := heldMove_inv s5.mobileButtons.down 0 1 time rndDown s5 i5
      obtain ⟨s7, h7, i7, p7⟩ := autoFall_inv (time - s.lastTime) rndFall s6 i6
      refine ⟨s7, ?_, i7, ?_, fun _ _ => ?_⟩
      · rw [gameLoop_running s time rndDown rndFall hover hpause, h3, Option.some_bind, h4,
          Option.some_bind, h5, Option.some_bind, h6, Option.some_bind, h7]
      · rintro (h | h)
        · rw [hover] at h; cases h
        · rw [hpause] at h; cases h
      · exact ⟨p7.1.trans (p6.1.trans (p5.1.trans (p4.1.trans p3.1))),
          p7.2.trans (p6.2.trans (p5.2.trans (p4.2.trans p3.2)))⟩

theorem startGame_inv (s0 : State) (rndNext rndSpawn : Fin 7) (now : ℚ) :
    ∃ s, startGame s0 rndNext rndSpawn now = some s ∧ Inv s ∧
      s.fallSpeed = INITIAL_FALL_SPEED ∧ s.isPaused = false := by
  obtain ⟨s2, hgen, i2, sp, _, _, hp⟩ := generateNewShape_inv
    { s0 with
      board := List.replicate ROWS (List.replicate COLUMNS none)
      score := 0
      gameOver := false
      isPaused := false
      fallSpeed := INITIAL_FALL_SPEED
      lastSpeedIncreaseTime := 0
      completedLines := []
      lastMoveTime := 0
      isFirstMove := true
      nextShape := SHAPES.getD rndNext.val []
      nextColor := COLORS.getD rndNext.val "" } rndSpawn
    (show IsBoard (List.replicate ROWS (List.replicate COLUMNS none)) by decide)
    ⟨rndNext, rfl, rfl⟩ (by intro r hr; simp at hr)
  refine ⟨{ s2 with lastTime := now, dropCounter := 0 }, ?_, i2, sp.1, hp⟩
  simp only [startGame, hgen]

theorem compactionCallback_inv (s : State) (hinv : Inv s) :
    Inv (compactionCallback s) ∧ SameSpeed s (compactionCallback s) := by
  obtain ⟨hb, hc, hin, hnext, hok, _⟩ := hinv
  refine ⟨⟨isBoard_compactBoard s.completedLines s.board hb, hc, hin, hnext, hok, ?_⟩,
    ⟨rfl, rfl⟩⟩
  intro r hr
  simp [compactionCallback] at hr

theorem handleMobileAction_inv (s s1 : State) (action : Action) (fuel : Nat) (rnd : Fin 7)
    (hinv : Inv s) (h : handleMobileAction s action fuel rnd = some s1) :
    Inv s1 ∧ SameSpeed s s1 := by
  cases action with
  | hardDrop =>
    obtain ⟨h1, h2, _⟩ := hardDrop_inv rnd fuel s s1 hinv h
    exact ⟨h1, h2⟩
  | moveLeft =>
    simp only [handleMobileAction, Option.some.injEq] at h
    rw [← h]; exact ⟨hinv, rfl, rfl⟩
  | moveRight =>
    simp only [handleMobileAction, Option.some.injEq] at h
    rw [← h]; exact ⟨hinv, rfl, rfl⟩
  | rotate =>
    simp only [handleMobileAction, Option.some.injEq] at h
    rw [← h]; exact ⟨hinv, rfl, rfl⟩
  | moveDown =>
    simp only [handleMobileAction, Option.some.injEq] at h
    rw [← h]; exact ⟨hinv, rfl, rfl⟩

theorem handleMobileRelease_inv (s : State) (action : Action) (hinv : Inv s) :
    Inv (handleMobileRelease s action) ∧ SameSpeed s (handleMobileRelease s action) := by
  cases action <;> exact ⟨hinv, rfl, rfl⟩

theorem togglePause_inv (s : State) (now : ℚ) (hinv : Inv s) :
    Inv (togglePause s now) ∧ SameSpeed s (togglePause s now) := by
  unfold togglePause
  simp only
  split
  · exact ⟨hinv, rfl, rfl⟩
  · exact ⟨hinv, rfl, rfl⟩

theorem keydown_inv (s s1 : State) (name : String) (fuel : Nat) (rnd rndSpawn : Fin 7)
    (now : ℚ) (hinv : Inv s) (h : keydown s name fuel rnd rndSpawn now = some s1) :
    Inv s1 ∧ (¬ (s.gameOver = true ∧ name = "Enter") → SameSpeed s s1) := by
  unfold keydown at h
  split at h
  · rename_i hrestart
    obtain ⟨s2, h2, i2, _, _⟩ := startGame_inv s rnd rndSpawn now
    rw [h2] at h
    cases h
    refine ⟨i2, fun hno => absurd ?_ hno⟩
    simpa using hrestart
  · split at h
    · cases h
      exact ⟨hinv, fun _ => ⟨rfl, rfl⟩⟩
    · split at h
      · obtain ⟨b, s2, hmove, i2, p2, _⟩ := movePiece_inv s (-1) 0 rnd hinv
        rw [hmove] at h
        cases h
        exact ⟨i2, fun _ => p2⟩
      · split at h
        · obtain ⟨b, s2, hmove, i2, p2, _⟩ := movePiece_inv s 1 0 rnd hinv
          rw [hmove] at h
          cases h
          exact ⟨i2, fun _ => p2⟩
        · split at h
          · obtain ⟨b, s2, hmove, i2, p2, _⟩ := movePiece_inv s 0 1 rnd hinv
            rw [hmove] at h
            cases h
            exact ⟨i2, fun _ => p2⟩
          · split at h
            · obtain ⟨s2, hrot, i2, p2, _⟩ := rotatePiece_inv s hinv
              rw [hrot] at h
              cases h
              exact ⟨i2, fun _ => p2⟩
            · split at h
              · obtain ⟨h1, h2, _⟩ := hardDrop_inv rnd fuel s s1 hinv h
                exact ⟨h1, fun _ => h2⟩
              · split at h
                · cases h
                  exact ⟨(togglePause_inv s now hinv).1, fun _ => (togglePause_inv s now hinv).2⟩
                · cases h
                  exact ⟨hinv, fun _ => ⟨rfl, rfl⟩⟩

theorem step_inv (s s1 : State) (e : Event) (hinv : Inv s) (h : step s e = some s1) :
    Inv s1 := by
  cases e with
  | tick time rndDown rndFall =>
    obtain ⟨s2, h2, i2, _⟩ := gameLoop_inv s time rndDown rndFall hinv
    simp only [step] at h
    rw [h2] at h
    cases h
    exact i2
  | key name fuel rnd rndSpawn now => exact (keydown_inv s s1 name fuel rnd rndSpawn now hinv h).1
  | press action fuel rnd => exact (handleMobileAction_inv s s1 action fuel rnd hinv h).1
  | release action =>
    simp only [step, Option.some.injEq] at h
    rw [← h]
    exact (handleMobileRelease_inv s action hinv).1
  | pauseClick now =>
    simp only [step, Option.some.injEq] at h
    rw [← h]
    exact (togglePause_inv s now hinv).1
  | restartClick rndNext rndSpawn now =>
    obtain ⟨s2, h2, i2, _, _⟩ := startGame_inv s rndNext rndSpawn now
    simp only [step] at h
    rw [h2] at h
    cases h
    exact i2
  | timer =>
    simp only [step] at h
    split at h
    · cases h
      exact (compactionCallback_inv s hinv).1
    · cases h

theorem reachable_inv (s : State) (h : Reachable s) : Inv s := by
  induction h with
  | start rndNext rndSpawn now s hs =>
    obtain ⟨s2, h2, i2, _, _⟩ := startGame_inv initState rndNext rndSpawn now
    rw [h2] at hs
    cases hs
    exact i2
  | next s e s1 _ hstep ih => exact step_inv s s1 e ih hstep

theorem reachable_run (es : List Event) :
    ∀ (s s1 : State), Reachable s → run s es = some s1 → Reachable s1 := by
  induction es with
  | nil =>
    intro s s1 hr h
    simp only [run, Option.some.injEq] at h
    rw [← h]
    exact hr
  | cons e rest ih =>
    intro s s1 hr h
    simp only [run] at h
    split at h
    · cases h
    · rename_i s2 hstep
      exact ih s2 s1 (Reachable.next s e s2 hr hstep) h

theorem readsFrom_inRange (board : Board) (pos : Position) (shape : Shape) :
    ∀ (cells : List (Nat × Nat)) (p : Int × Int), p ∈ readsFrom board pos shape cells →
      0 ≤ p.1 ∧ p.1 < ROWS ∧ 0 ≤ p.2 ∧ p.2 < COLUMNS := by
  intro cells
  induction cells with
  | nil =>
    intro p hp
    simp [readsFrom] at hp
  | cons cell rest ih =>
    intro p hp
    obtain ⟨r, c⟩ := cell
    simp only [readsFrom] at hp
    split at hp
    · split at hp
      · simp at hp
      · rename_i hguard
        simp only [Bool.or_eq_true, decide_eq_true_eq, not_or, not_lt, ge_iff_le, not_le]
          at hguard
        split at hp
        · rename_i hy
          simp only [decide_eq_true_eq] at hy
          rcases List.mem_cons.1 hp with h | h
          · rw [h]
            exact ⟨hy, hguard.2, hguard.1.1, hguard.1.2⟩
          · split at h
            · simp at h
            · exact ih p h
        · exact ih p hp
    · exact ih p hp

theorem reachable_game (rndNext rndSpawn : Fin 7) (now : ℚ) (es : List Event) (s : State)
    (h : ((startGame initState rndNext rndSpawn now).bind fun s0 => run s0 es) = some s) :
    Reachable s := by
  cases h0 : startGame initState rndNext rndSpawn now with
  | none => rw [h0] at h; cases h
  | some s0 =>
    rw [h0] at h
    exact reachable_run es s0 s (Reachable.start rndNext rndSpawn now s0 h0) h

theorem run_of_runCounting (es : List Event) :
    ∀ (s : State) (n : Nat) (s1 : State) (m : Nat),
      runCounting s n es = some (s1, m) → run s es = some s1 := by
  induction es with
  | nil =>
    intro s n s1 m h
    simp only [runCounting, Option.some.injEq, Prod.mk.injEq] at h
    simp [run, h.1]
  | cons e rest ih =>
    intro s n s1 m h
    simp only [runCounting] at h
    simp only [run]
    split at h
    · cases h
    · split at h
      · exact ih _ _ _ _ h
      · exact ih _ _ _ _ h

/-! ## Verified properties -/

/-- C1: on a 20x10 board, `collision(pos, shape)` is true exactly when some occupied shape
cell `(r, c)` has `x + c < 0`, or `x + c >= COLUMNS`, or `y + r >= ROWS`, or has `y + r >= 0`
and a non-empty board cell at `(y + r, x + c)`; a cell with `y + r < 0` can therefore only
collide through its column. -/
theorem collision_iff (board : Board) (hb : IsBoard board) (pos : Position) (shape : Shape) :
    (collision board pos shape = true ↔
      ∃ r c, Occupied shape r c ∧
        (pos.x + c < 0 ∨ pos.x + c ≥ COLUMNS ∨ pos.y + r ≥ ROWS ∨
          (pos.y + r ≥ 0 ∧ boardAt board (pos.y + r) (pos.x + c) ≠ none))) ∧
    ((∀ r c, Occupied shape r c → pos.y + r < 0) →
      (collision board pos shape = true ↔
        ∃ r c, Occupied shape r c ∧ (pos.x + c < 0 ∨ pos.x + c ≥ COLUMNS))) := by
  refine ⟨collision_eq_true_iff board hb pos shape, fun habove => ?_⟩
  rw [collision_eq_true_iff board hb pos shape]
  constructor
  · rintro ⟨r, c, hocc, h | h | h | ⟨h1, _⟩⟩
    · exact ⟨r, c, hocc, Or.inl h⟩
    · exact ⟨r, c, hocc, Or.inr h⟩
    · have := habove r c hocc
      simp only [ROWS] at h
      omega
    · have := habove r c hocc
      omega
  · rintro ⟨r, c, hocc, h | h⟩
    · exact ⟨r, c, hocc, Or.inl h⟩
    · exact ⟨r, c, hocc, Or.inr (Or.inl h)⟩

/-- C1, at a concrete input: the T piece at `(4, 17)` above the two full rows. -/
theorem collision_iff_witness :
    IsBoard doubleBoard ∧
      (collision doubleBoard { x := 4, y := 17 } (SHAPES.getD 0 []) = true ↔
        ∃ r c, Occupied (SHAPES.getD 0 []) r c ∧
          ((4 : Int) + c < 0 ∨ (4 : Int) + c ≥ COLUMNS ∨ (17 : Int) + r ≥ ROWS ∨
            ((17 : Int) + r ≥ 0 ∧ boardAt doubleBoard ((17 : Int) + r) ((4 : Int) + c) ≠ none))) :=
  ⟨by decide, (collision_iff doubleBoard (by decide) { x := 4, y := 17 } (SHAPES.getD 0 [])).1⟩

/-- C2 fails on the code: with rows 18 and 19 full, `checkCompletedLines` records `[19, 18]`
and the deferred callback clears index 19 and then index 18 of the already shifted board.
The old row 18 (full) ends at index 19 and stays, the old row 17 is lost; the specification
asks for the old row 17 at index 19 under 19 empty rows. -/
theorem compaction_two_lines_misindexed :
    IsBoard doubleBoard ∧
      (checkCompletedLines doubleState).completedLines = [19, 18] ∧
      (compactionCallback (checkCompletedLines doubleState)).board =
        List.replicate 19 emptyRow ++ [fullRow] ∧
      specCompaction doubleBoard = List.replicate 19 emptyRow ++ [cornerRow] ∧
      (compactionCallback (checkCompletedLines doubleState)).board ≠
        specCompaction doubleBoard := by
  refine ⟨by decide, by decide, by decide, by decide, by decide⟩

/-- C3: when every occupied cell of the active piece that maps to a board row `>= 0` lies
inside the grid, `placePiece` succeeds and changes only the board: each such cell
`(y + r, x + c)` then holds the piece colour and is truthy (occupied), nothing is written for
cells mapping to a row `< 0`, and every other board cell keeps its value. -/
theorem placePiece_spec (s : State) (hb : IsBoard s.board) (hc : s.currentColor ≠ "")
    (hin : InGrid s.currentShape s.currentPosition) :
    ∃ b1, placePiece s = some { s with board := b1 } ∧ IsBoard b1 ∧
      (∀ r c, Occupied s.currentShape r c → s.currentPosition.y + r ≥ 0 →
        boardAt b1 (s.currentPosition.y + r) (s.currentPosition.x + c) = some s.currentColor ∧
          truthy (boardAt b1 (s.currentPosition.y + r) (s.currentPosition.x + c)) = true) ∧
      (∀ i j, (¬ ∃ r c, Occupied s.currentShape r c ∧ s.currentPosition.y + r ≥ 0 ∧
          i = s.currentPosition.y + r ∧ j = s.currentPosition.x + c) →
        boardAt b1 i j = boardAt s.board i j) := by
  obtain ⟨b1, hb1, hB1, hcells⟩ :=
    placeOnBoard_spec s.board hb s.currentShape s.currentPosition s.currentColor hc hin
  refine ⟨b1, ?_, hB1, fun r c hocc hy => ?_, fun i j hno => (hcells i j).2 hno⟩
  · simp [placePiece, hb1]
  · have := (hcells (s.currentPosition.y + r) (s.currentPosition.x + c)).1
      ⟨r, c, hocc, hy, rfl, rfl⟩
    rw [this]
    exact ⟨rfl, by simp [truthy, hc]⟩

/-- C3, at a concrete input: the T piece locked at its spawn position on the empty board. -/
theorem placePiece_spec_witness :
    IsBoard sampleState.board ∧ sampleState.currentColor ≠ "" ∧
      InGrid sampleState.currentShape sampleState.currentPosition ∧
      ∃ b1, placePiece sampleState = some { sampleState with board := b1 } ∧ IsBoard b1 ∧
        (∀ r c, Occupied sampleState.currentShape r c → sampleState.currentPosition.y + r ≥ 0 →
          boardAt b1 (sampleState.currentPosition.y + r) (sampleState.currentPosition.x + c) =
              some sampleState.currentColor ∧
            truthy (boardAt b1 (sampleState.currentPosition.y + r)
              (sampleState.currentPosition.x + c)) = true) ∧
        (∀ i j, (¬ ∃ r c, Occupied sampleState.currentShape r c ∧
            sampleState.currentPosition.y + r ≥ 0 ∧
            i = sampleState.currentPosition.y + r ∧ j = sampleState.currentPosition.x + c) →
          boardAt b1 i j = boardAt sampleState.board i j) :=
  ⟨by decide, by decide, by decide,
    placePiece_spec sampleState (by decide) (by decide) (by decide)⟩

/-- C4: `movePiece(dx, dy)` returns true exactly when the current shape does not collide at
the candidate position; it then changes the position to the candidate and nothing else.  When
the shape collides and `dy <= 0` it returns false and the whole state is unchanged, and in a
well-formed state a colliding call returns false also for `dy > 0`. -/
theorem movePiece_spec (s : State) (dx dy : Int) (rnd : Fin 7) :
    ((∃ s1, movePiece s dx dy rnd = some (true, s1)) ↔
      collision s.board { x := s.currentPosition.x + dx, y := s.currentPosition.y + dy }
        s.currentShape = false) ∧
    (collision s.board { x := s.currentPosition.x + dx, y := s.currentPosition.y + dy }
        s.currentShape = false →
      movePiece s dx dy rnd = some (true, { s with
        currentPosition := { x := s.currentPosition.x + dx, y := s.currentPosition.y + dy } })) ∧
    (collision s.board { x := s.currentPosition.x + dx, y := s.currentPosition.y + dy }
        s.currentShape = true → dy ≤ 0 →
      movePiece s dx dy rnd = some (false, s)) ∧
    (WellFormed s →
      collision s.board { x := s.currentPosition.x + dx, y := s.currentPosition.y + dy }
        s.currentShape = true →
      ∃ s1, movePiece s dx dy rnd = some (false, s1)) := by
  refine ⟨?_, ?_, ?_, ?_⟩
  · constructor
    · rintro ⟨s1, h⟩
      by_contra hcol
      simp only [Bool.not_eq_false] at hcol
      unfold movePiece at h
      simp only [hcol, Bool.not_true, Bool.false_eq_true, if_false] at h
      split at h
      · split at h
        · cases h
        · split at h
          · cases h
          · cases h
      · cases h
    · intro hcol
      refine ⟨{ s with currentPosition :=
        { x := s.currentPosition.x + dx, y := s.currentPosition.y + dy } }, ?_⟩
      simp [movePiece, hcol]
  · intro hcol
    simp [movePiece, hcol]
  · intro hcol hdy
    have : ¬ dy > 0 := by omega
    simp [movePiece, hcol, this]
  · rintro ⟨hb, hc, hin, hnext⟩ hcol
    by_cases hdy : dy > 0
    · obtain ⟨b1, hb1, _, _⟩ :=
        placeOnBoard_spec s.board hb s.currentShape s.currentPosition s.currentColor hc hin
      obtain ⟨row0, rest, hns⟩ := List.exists_cons_of_ne_nil hnext
      have hgen : ∃ s3, generateNewShape (checkCompletedLines { s with board := b1 }) rnd =
          some s3 := by
        have hns2 : (checkCompletedLines { s with board := b1 }).nextShape = row0 :: rest := by
          unfold checkCompletedLines
          simp only
          split <;> exact hns
        unfold generateNewShape
        rw [hns2]
        simp only
        split <;> exact ⟨_, rfl⟩
      obtain ⟨s3, hs3⟩ := hgen
      exact ⟨s3, by simp [movePiece, hcol, hdy, placePiece, hb1, hs3]⟩
    · exact ⟨s, by simp [movePiece, hcol, hdy]⟩

/-- C4, at a concrete input: one step to the left from the spawn position. -/
theorem movePiece_spec_witness :
    movePiece sampleState (-1) 0 0 =
      some (true, { sampleState with currentPosition := { x := 4 + -1, y := 0 + 0 } }) :=
  (movePiece_spec sampleState (-1) 0 0).2.1 (by decide)

/-- C5: in a well-formed state whose shape collides at `(x, y + 1)`, one call
`movePiece(0, 1)` returns false and, within the call, writes the piece cells into the board
at `(x, y)` and changes no other board cell, records the full rows of the resulting board and
adds 100 per full row to the score, and makes the former next piece the active piece at its
spawn position. -/
theorem movePiece_landing (s : State) (rnd : Fin 7) (hwf : WellFormed s)
    (hcol : collision s.board { x := s.currentPosition.x + 0, y := s.currentPosition.y + 1 }
      s.currentShape = true) :
    ∃ s3 row0 rest,
      movePiece s 0 1 rnd = some (false, s3) ∧
      s.nextShape = row0 :: rest ∧
      placeOnBoard s.board s.currentShape s.currentPosition s.currentColor = some s3.board ∧
      (∀ r c, Occupied s.currentShape r c → s.currentPosition.y + r ≥ 0 →
        boardAt s3.board (s.currentPosition.y + r) (s.currentPosition.x + c) =
          some s.currentColor) ∧
      (∀ i j, (¬ ∃ r c, Occupied s.currentShape r c ∧ s.currentPosition.y + r ≥ 0 ∧
          i = s.currentPosition.y + r ∧ j = s.currentPosition.x + c) →
        boardAt s3.board i j = boardAt s.board i j) ∧
      s3.completedLines = findCompletedLines s3.board ∧
      (∀ r, r ∈ s3.completedLines ↔ r < ROWS ∧ FullRow s3.board r) ∧
      s3.score = s.score +
        100 * ((Finset.range ROWS).filter fun r => FullRow s3.board r).card ∧
      s3.currentShape = s.nextShape ∧ s3.currentColor = s.nextColor ∧
      s3.currentPosition =
        { x := ((COLUMNS / 2 : Nat) : Int) - ((row0.length / 2 : Nat) : Int), y := 0 } := by
  obtain ⟨hb, hc, hin, hnext⟩ := hwf
  obtain ⟨b1, hb1, hB1, hcells⟩ :=
    placeOnBoard_spec s.board hb s.currentShape s.currentPosition s.currentColor hc hin
  obtain ⟨row0, rest, hns⟩ := List.exists_cons_of_ne_nil hnext
  have hns2 : (checkCompletedLines { s with board := b1 }).nextShape = row0 :: rest := by
    rw [checkCompletedLines_eq]; exact hns
  have hgen := generateNewShape_eq (checkCompletedLines { s with board := b1 }) rnd row0 rest
    hns2
  have hmove := movePiece_lock s 0 1 rnd b1 hcol (by decide) hb1 _ hgen
  refine ⟨_, row0, rest, hmove, hns, ?_, ?_, ?_, ?_, ?_, ?_, ?_, ?_, ?_⟩
  · rw [checkCompletedLines_eq]; exact hb1
  · intro r c hocc hy
    rw [checkCompletedLines_eq]
    exact (hcells _ _).1 ⟨r, c, hocc, hy, rfl, rfl⟩
  · intro i j hno
    rw [checkCompletedLines_eq]
    exact (hcells i j).2 hno
  · rw [checkCompletedLines_eq]
  · intro r
    rw [checkCompletedLines_eq]
    exact mem_findCompletedLines b1 hB1 r
  · rw [checkCompletedLines_eq]
    simp only
    rw [length_findCompletedLines b1 hB1]
    ring
  · rw [checkCompletedLines_eq]; exact hns.symm
  · rw [checkCompletedLines_eq]
  · rw [checkCompletedLines_eq]; rfl

/-- C5, at a concrete input: the O piece lands in the gap of rows 18 and 19. -/
theorem movePiece_landing_witness :
    WellFormed landingState ∧
      collision landingState.board
        { x := landingState.currentPosition.x + 0, y := landingState.currentPosition.y + 1 }
        landingState.currentShape = true ∧
      ∃ s3, movePiece landingState 0 1 0 = some (false, s3) ∧
        placeOnBoard landingState.board landingState.currentShape
          landingState.currentPosition landingState.currentColor = some s3.board ∧
        s3.currentShape = landingState.nextShape := by
  refine ⟨by decide, by decide, ?_⟩
  obtain ⟨s3, _, _, h1, _, h2, _, _, _, _, _, h3, _⟩ :=
    movePiece_landing landingState 0 (by decide) (by decide)
  exact ⟨s3, h1, h2, h3⟩

/-- C6: on a well-formed board with exactly `N` full rows, `checkCompletedLines` adds exactly
`100 * N` to the score and records in `completedLines` exactly the indices of the full rows,
each once; the board is not changed by the synchronous part. -/
theorem checkCompletedLines_spec (s : State) (hb : IsBoard s.board) (N : Nat)
    (hN : ((Finset.range ROWS).filter fun r => FullRow s.board r).card = N) :
    (checkCompletedLines s).score = s.score + 100 * N ∧
    (∀ r, r ∈ (checkCompletedLines s).completedLines ↔ r < ROWS ∧ FullRow s.board r) ∧
    (checkCompletedLines s).completedLines.Nodup ∧
    (checkCompletedLines s).completedLines.length = N ∧
    (checkCompletedLines s).board = s.board := by
  rw [checkCompletedLines_eq]
  simp only
  refine ⟨?_, fun r => mem_findCompletedLines s.board hb r, nodup_findCompletedLines s.board,
    ?_, trivial⟩
  · rw [length_findCompletedLines s.board hb, hN]; ring
  · rw [length_findCompletedLines s.board hb, hN]

/-- C6, at a concrete input: two full rows give 200 points. -/
theorem checkCompletedLines_spec_witness :
    IsBoard doubleState.board ∧
      ((Finset.range ROWS).filter fun r => FullRow doubleState.board r).card = 2 ∧
      (checkCompletedLines doubleState).score = doubleState.score + 100 * 2 :=
  ⟨by decide, by decide, (checkCompletedLines_spec doubleState (by decide) 2 (by decide)).1⟩

/-- C7: `generateNewShape` makes the former next piece (shape and colour) the active piece at
`x = floor(COLUMNS / 2) - floor(width / 2)`, `y = 0`, leaves the board unchanged, sets
`gameOver` to true when the new piece collides there (in particular when one of its target
cells is occupied) and leaves the flag as it was when it does not collide. -/
theorem generateNewShape_spec (s : State) (rnd : Fin 7) (row0 : List Nat) (rest : Shape)
    (hns : s.nextShape = row0 :: rest) :
    ∃ s1, generateNewShape s rnd = some s1 ∧
      s1.currentShape = s.nextShape ∧ s1.currentColor = s.nextColor ∧
      s1.currentPosition =
        { x := ((COLUMNS / 2 : Nat) : Int) - ((row0.length / 2 : Nat) : Int), y := 0 } ∧
      s1.board = s.board ∧
      (collision s.board s1.currentPosition s1.currentShape = true → s1.gameOver = true) ∧
      (collision s.board s1.currentPosition s1.currentShape = false →
        s1.gameOver = s.gameOver) ∧
      (IsBoard s.board →
        (∃ r c, Occupied s.nextShape r c ∧
          boardAt s.board (s1.currentPosition.y + r) (s1.currentPosition.x + c) ≠ none) →
        s1.gameOver = true) := by
  refine ⟨_, generateNewShape_eq s rnd row0 rest hns, hns.symm, rfl, rfl, rfl, ?_, ?_, ?_⟩
  · intro h
    simp only at h
    simp [h]
  · intro h
    simp only at h
    simp [h]
  · rintro hb ⟨r, c, hocc, hcell⟩
    have hcol : collision s.board (spawnPosition row0) (row0 :: rest) = true := by
      rw [collision_eq_true_iff s.board hb]
      rw [hns] at hocc
      refine ⟨r, c, hocc, Or.inr (Or.inr (Or.inr ⟨?_, hcell⟩))⟩
      simp [spawnPosition]
    simp [hcol]

/-- C7, at a concrete input: the O piece spawns on the empty board. -/
theorem generateNewShape_spec_witness :
    sampleState.nextShape = [1, 1] :: [[1, 1]] ∧
      ∃ s1, generateNewShape sampleState 3 = some s1 ∧
        s1.currentPosition = { x := 4, y := 0 } ∧ s1.board = sampleState.board := by
  refine ⟨rfl, ?_⟩
  obtain ⟨s1, h1, _, _, h2, h3, _⟩ := generateNewShape_spec sampleState 3 [1, 1] [[1, 1]] rfl
  exact ⟨s1, h1, h2, h3⟩

/-- C8: `rotatePiece` replaces the current shape by `rotateMatrix(currentShape)` when the
rotated shape does not collide at the current position and leaves the whole state as it was
when it collides; position, board and score are unchanged in both cases. -/
theorem rotatePiece_spec (s : State) (hne : s.currentShape ≠ []) :
    ∃ rotated s1, rotateMatrix s.currentShape = some rotated ∧ rotatePiece s = some s1 ∧
      (collision s.board s.currentPosition rotated = false →
        s1 = { s with currentShape := rotated }) ∧
      (collision s.board s.currentPosition rotated = true → s1 = s) ∧
      s1.currentPosition = s.currentPosition ∧ s1.board = s.board ∧ s1.score = s.score := by
  obtain ⟨row0, rest, hshape⟩ := List.exists_cons_of_ne_nil hne
  have hrot : ∃ rotated, rotateMatrix s.currentShape = some rotated := by
    rw [hshape]; exact ⟨_, rfl⟩
  obtain ⟨rotated, hrot⟩ := hrot
  by_cases hcol : collision s.board s.currentPosition rotated = true
  · refine ⟨rotated, s, hrot, ?_, ?_, fun _ => rfl, rfl, rfl, rfl⟩
    · simp [rotatePiece, hrot, hcol]
    · intro h; rw [hcol] at h; cases h
  · simp only [Bool.not_eq_true] at hcol
    refine ⟨rotated, { s with currentShape := rotated }, hrot, ?_, fun _ => rfl, ?_,
      rfl, rfl, rfl⟩
    · simp [rotatePiece, hrot, hcol]
    · intro h; rw [hcol] at h; cases h

/-- C8, at a concrete input: the T piece at its spawn position. -/
theorem rotatePiece_spec_witness :
    sampleState.currentShape ≠ [] ∧
      ∃ rotated s1, rotateMatrix sampleState.currentShape = some rotated ∧
        rotatePiece sampleState = some s1 ∧ s1.board = sampleState.board := by
  refine ⟨by decide, ?_⟩
  obtain ⟨rotated, s1, h1, h2, _, _, _, h3, _⟩ := rotatePiece_spec sampleState (by decide)
  exact ⟨rotated, s1, h1, h2, h3⟩

/-- C9: for a rectangular matrix with `rows >= 1` and `cols >= 1`, `rotateMatrix` returns a
`cols x rows` matrix with `new[c][rows - 1 - r] = old[r][c]` for all `r < rows`, `c < cols`,
and four successive rotations return the original matrix. -/
theorem rotateMatrix_spec (matrix : Shape) (rows cols : Nat) (hr : 1 ≤ rows) (hc : 1 ≤ cols)
    (hrect : IsRect matrix rows cols) :
    (∃ R, rotateMatrix matrix = some R ∧ IsRect R cols rows ∧
      ∀ r c, r < rows → c < cols → shapeAt R c (rows - 1 - r) = shapeAt matrix r c) ∧
    (((rotateMatrix matrix).bind rotateMatrix).bind rotateMatrix).bind rotateMatrix =
      some matrix := by
  obtain ⟨R1, h1, hR1, e1⟩ := rotateMatrix_entries matrix rows cols hr hrect
  obtain ⟨R2, h2, hR2, e2⟩ := rotateMatrix_entries R1 cols rows hc hR1
  obtain ⟨R3, h3, hR3, e3⟩ := rotateMatrix_entries R2 rows cols hr hR2
  obtain ⟨R4, h4, hR4, e4⟩ := rotateMatrix_entries R3 cols rows hc hR3
  constructor
  · refine ⟨R1, h1, hR1, fun r c hr2 hc2 => ?_⟩
    rw [e1 c (rows - 1 - r) hc2 (by omega)]
    have : rows - 1 - (rows - 1 - r) = r := by omega
    rw [this]
  · rw [h1, Option.some_bind, h2, Option.some_bind, h3, Option.some_bind, h4]
    congr 1
    apply isRect_ext R4 matrix rows cols hR4 hrect
    intro p q hp hq
    rw [e4 p q hp hq, e3 (cols - 1 - q) p (by omega) hp,
      e2 (rows - 1 - p) (cols - 1 - q) (by omega) (by omega),
      e1 (cols - 1 - (cols - 1 - q)) (rows - 1 - p) (by omega) (by omega)]
    have a1 : cols - 1 - (cols - 1 - q) = q := by omega
    have a2 : rows - 1 - (rows - 1 - p) = p := by omega
    rw [a1, a2]

/-- C9, at a concrete input: the T piece, a 2x3 matrix. -/
theorem rotateMatrix_spec_witness :
    IsRect [[1, 1, 1], [0, 1, 0]] 2 3 ∧
      rotateMatrix [[1, 1, 1], [0, 1, 0]] = some [[0, 1], [1, 1], [0, 1]] ∧
      (((rotateMatrix [[1, 1, 1], [0, 1, 0]]).bind rotateMatrix).bind rotateMatrix).bind
        rotateMatrix = some [[1, 1, 1], [0, 1, 0]] :=
  ⟨by decide, by decide,
    (rotateMatrix_spec [[1, 1, 1], [0, 1, 0]] 2 3 (by decide) (by decide) (by decide)).2⟩

/-- C10 fails on the code: with the left button pressed at time 0 of the sample game and
ticks at 50, 150, 250 and 350 ms, the piece moves left at 250 ms only.  At 350 ms `canMove`
still compares with `INITIAL_MOVE_DELAY`, because `isFirstMove` is never set to false, so no
move is attempted: position and `lastMoveTime` stay those of the 250 ms tick. -/
theorem held_left_no_repeat :
    handleMobileAction sampleState Action.moveLeft 0 0 = some (heldLeft 0 4 0) ∧
      gameLoop (heldLeft 0 4 0) 50 0 0 = some (heldLeft 50 4 0) ∧
      gameLoop (heldLeft 50 4 0) 150 0 0 = some (heldLeft 150 4 0) ∧
      gameLoop (heldLeft 150 4 0) 250 0 0 = some (heldLeft 250 3 250) ∧
      gameLoop (heldLeft 250 3 250) 350 0 0 = some (heldLeft 350 3 250) ∧
      (heldLeft 250 3 250).isFirstMove = true ∧
      canMove (heldLeft 250 3 250) 350 = false := by
  refine ⟨?_, ?_, ?_, ?_, ?_, rfl, ?_⟩
  · simp [handleMobileAction, heldLeft, sampleState]
  · rw [gameLoop_left_waits _ _ _ _ rfl rfl (by norm_num [heldLeft, sampleState,
      SPEED_INCREASE_INTERVAL]) rfl rfl rfl
      (by simp [canMove, heldLeft, sampleState, INITIAL_MOVE_DELAY]; norm_num)
      (by norm_num [heldLeft, sampleState, INITIAL_FALL_SPEED])]
    simp [heldLeft, sampleState]
  · rw [gameLoop_left_waits _ _ _ _ rfl rfl (by norm_num [heldLeft, sampleState,
      SPEED_INCREASE_INTERVAL]) rfl rfl rfl
      (by simp [canMove, heldLeft, sampleState, INITIAL_MOVE_DELAY]; norm_num)
      (by norm_num [heldLeft, sampleState, INITIAL_FALL_SPEED])]
    simp [heldLeft, sampleState]
  · rw [gameLoop_left_moves _ _ _ _ rfl rfl (by norm_num [heldLeft, sampleState,
      SPEED_INCREASE_INTERVAL]) rfl rfl rfl rfl
      (by simp [canMove, heldLeft, sampleState, INITIAL_MOVE_DELAY]; norm_num)
      (by decide)
      (by norm_num [heldLeft, sampleState, INITIAL_FALL_SPEED])]
    simp [heldLeft, sampleState]
  · rw [gameLoop_left_waits _ _ _ _ rfl rfl (by norm_num [heldLeft, sampleState,
      SPEED_INCREASE_INTERVAL]) rfl rfl rfl
      (by simp [canMove, heldLeft, sampleState, INITIAL_MOVE_DELAY]; norm_num)
      (by norm_num [heldLeft, sampleState, INITIAL_FALL_SPEED])]
    simp [heldLeft, sampleState]
  · simp [canMove, heldLeft, sampleState, INITIAL_MOVE_DELAY]; norm_num

/-- C11 fails on the code: the ramp compares the tick time with `lastSpeedIncreaseTime`,
which `startGame` sets to 0 instead of the current time and which `togglePause` does not
move on resume.  A game started at time 100000 has the fall interval 680 after its first
tick, 16 ms later; a game started at time 0, paused after the tick at 20 ms and resumed at
40000 ms, has the fall interval 680 at the tick of 40016 ms, after 36 ms of play. -/
theorem speed_ramp_counts_from_time_zero :
    startGame initState 0 1 100000 = some lateState ∧
      lateState.fallSpeed = 800 ∧
      (gameLoop lateState 100016 0 0).map (fun s => s.fallSpeed) = some 680 ∧
      startGame initState 0 1 0 = some sampleState ∧
      gameLoop sampleState 20 0 0 = some tick20State ∧
      (togglePause tick20State 20).isPaused = true ∧
      gameLoop (togglePause tick20State 20) 30000 0 0 = some (togglePause tick20State 20) ∧
      togglePause (togglePause tick20State 20) 40000 = resumedState ∧
      resumedState.fallSpeed = 800 ∧
      (gameLoop resumedState 40016 0 0).map (fun s => s.fallSpeed) = some 680 := by
  have hinv : Inv sampleState := reachable_inv _ (Reachable.start 0 1 0 sampleState rfl)
  have hlate : Inv lateState := hinv
  have hres : Inv resumedState := hinv
  refine ⟨rfl, rfl, ?_, rfl, ?_, rfl, ?_, rfl, rfl, ?_⟩
  · obtain ⟨s1, h1, _, _, hsp⟩ := gameLoop_inv lateState 100016 0 0 hlate
    rw [h1, Option.map_some', (hsp rfl rfl).1]
    norm_num [rampedState, lateState, sampleState, SPEED_INCREASE_INTERVAL,
      SPEED_INCREASE_FACTOR, INITIAL_FALL_SPEED]
  · rw [gameLoop_left_waits _ _ _ _ rfl rfl (by norm_num [sampleState,
      SPEED_INCREASE_INTERVAL]) rfl rfl rfl
      (by simp [canMove, sampleState, INITIAL_MOVE_DELAY]; norm_num)
      (by norm_num [sampleState, INITIAL_FALL_SPEED])]
    simp [tick20State, sampleState]
  · simp [gameLoop, togglePause, tick20State, sampleState]
  · obtain ⟨s1, h1, _, _, hsp⟩ := gameLoop_inv resumedState 40016 0 0 hres
    rw [h1, Option.map_some', (hsp rfl rfl).1]
    norm_num [rampedState, resumedState, sampleState, SPEED_INCREASE_INTERVAL,
      SPEED_INCREASE_FACTOR, INITIAL_FALL_SPEED]

/-- C12: while the game is paused a tick returns the state as it is, so score, board, active
piece, fall interval, `dropCounter`, `lastTime`, `lastSpeedIncreaseTime` and `lastMoveTime`
keep their values; `togglePause` on a paused state clears `isPaused`, sets `dropCounter` to 0
and `lastTime` to the current time, and leaves board, score and piece alone. -/
theorem paused_tick_frozen (s : State) (hp : s.isPaused = true) (time now : ℚ)
    (rndDown rndFall : Fin 7) :
    gameLoop s time rndDown rndFall = some s ∧
      togglePause s now =
        { s with isPaused := false, lastTime := now, dropCounter := 0 } ∧
      (togglePause s now).isPaused = false ∧ (togglePause s now).dropCounter = 0 := by
  have h1 : togglePause s now =
      { s with isPaused := false, lastTime := now, dropCounter := 0 } := by
    simp [togglePause, hp]
  refine ⟨?_, h1, ?_, ?_⟩
  · unfold gameLoop
    by_cases hg : s.gameOver = true
    · simp [hg]
    · simp [hg, hp]
  · rw [h1]
  · rw [h1]

/-- C12, at a concrete input: the sample game, paused. -/
theorem paused_tick_frozen_witness :
    gameLoop { sampleState with isPaused := true } 5000 0 0 =
      some { sampleState with isPaused := true } :=
  (paused_tick_frozen { sampleState with isPaused := true } rfl 5000 0 0 0).1

/-- C13: on a 20x10 board whose only full row is `r`, `checkCompletedLines` records `[r]` and
the deferred callback then leaves row 0 empty, row `i` equal to the old row `i - 1` for
`1 <= i <= r`, and every row below `r` unchanged; the board stays 20x10. -/
theorem single_line_compaction (s : State) (hb : IsBoard s.board) (r : Nat) (hr : r < ROWS)
    (hfull : FullRow s.board r)
    (honly : ∀ q, q < ROWS → FullRow s.board q → q = r) :
    (checkCompletedLines s).completedLines = [r] ∧
      (compactionCallback (checkCompletedLines s)).board.getD 0 [] = emptyRow ∧
      (∀ i, 1 ≤ i → i ≤ r →
        (compactionCallback (checkCompletedLines s)).board.getD i [] =
          s.board.getD (i - 1) []) ∧
      (∀ i, r < i →
        (compactionCallback (checkCompletedLines s)).board.getD i [] = s.board.getD i []) ∧
      IsBoard (compactionCallback (checkCompletedLines s)).board ∧
      (compactionCallback (checkCompletedLines s)).completedLines = [] := by
  have hlines : findCompletedLines s.board = [r] := by
    apply eq_singleton_of_nodup _ _ (nodup_findCompletedLines s.board)
    intro x
    rw [mem_findCompletedLines s.board hb x]
    constructor
    · rintro ⟨h1, h2⟩
      exact honly x h1 h2
    · rintro rfl
      exact ⟨hr, hfull⟩
  have hboard : (compactionCallback (checkCompletedLines s)).board = clearLine s.board r := by
    rw [checkCompletedLines_eq]
    simp [compactionCallback, hlines, compactBoard]
  have hlen : r < s.board.length := by rw [hb.1]; exact hr
  refine ⟨?_, ?_, ?_, ?_, ?_, ?_⟩
  · rw [checkCompletedLines_eq]; exact hlines
  · rw [hboard, getD_clearLine s.board r hlen 0]
    simp
  · intro i h1 h2
    rw [hboard, getD_clearLine s.board r hlen i]
    have : ¬ i = 0 := by omega
    rw [if_neg this, if_pos h2]
  · intro i h1
    rw [hboard, getD_clearLine s.board r hlen i]
    have h2 : ¬ i = 0 := by omega
    have h3 : ¬ i ≤ r := by omega
    rw [if_neg h2, if_neg h3]
  · rw [hboard]
    exact isBoard_clearLine s.board hb r
  · rfl

/-- C13, at a concrete input: the bottom row is the only full row. -/
theorem single_line_compaction_witness :
    IsBoard singleBoard ∧ FullRow singleBoard 19 ∧
      (∀ q, q < ROWS → FullRow singleBoard q → q = 19) ∧
      (compactionCallback (checkCompletedLines { sampleState with board := singleBoard })).board
          = List.replicate 19 emptyRow ++ [cornerRow] ∧
      (checkCompletedLines { sampleState with board := singleBoard }).completedLines = [19] :=
  ⟨by decide, by decide, by decide, by decide,
    (single_line_compaction { sampleState with board := singleBoard } (by decide) 19
      (by decide) (by decide) (by decide)).1⟩

/-- C14 fails on the code: the `keydown` listener has no `gameOver` guard for the movement
keys.  In the game over state reached by stacking ten O pieces in the spawn columns, with
the T piece that could not be placed, `ArrowDown` locks that T piece: the empty board cell
`(0, 6)` receives its colour and the next piece becomes the active piece, while `gameOver`
stays true. -/
theorem game_over_key_still_locks :
    topOutGame.map (fun s => (s.gameOver, s.currentShape, boardAt s.board 0 6)) =
        some (true, [[1, 1, 1], [0, 1, 0]], none) ∧
      (topOutGame.bind fun s => keydown s "ArrowDown" 20 4 0 0).map
          (fun s => (s.gameOver, s.currentShape, boardAt s.board 0 6)) =
        some (true, [[1, 1], [1, 1]], some "#FF0D72") := by
  constructor <;> decide

/-- C15: in a well-formed state whose active shape has an occupied cell and whose position
has `y >= 0`, `hardDrop` terminates after `k + 1 <= ROWS` calls of `movePiece(0, 1)`: `k`
calls that each move the piece down one row, then one call that collides, returns false and
locks the piece at `(x, y + k)`.  The fuel of the embedding counts the calls: `k` calls do
not finish the loop, `k + 1` or more do. -/
theorem hardDrop_terminates (s : State) (rnd : Fin 7) (hwf : WellFormed s) (r c : Nat)
    (hocc : Occupied s.currentShape r c) (hy : 0 ≤ s.currentPosition.y) :
    ∃ k s1, k + 1 ≤ ROWS ∧
      hardDrop ROWS s rnd = some s1 ∧
      hardDrop k s rnd = none ∧
      (∀ fuel, k + 1 ≤ fuel → hardDrop fuel s rnd = some s1) ∧
      (∀ j : Nat, j < k →
        collision s.board { x := s.currentPosition.x, y := s.currentPosition.y + (j + 1 : Nat) }
          s.currentShape = false) ∧
      collision s.board { x := s.currentPosition.x, y := s.currentPosition.y + (k + 1 : Nat) }
        s.currentShape = true ∧
      movePiece { s with currentPosition :=
        { x := s.currentPosition.x, y := s.currentPosition.y + (k : Nat) } } 0 1 rnd =
          some (false, s1) ∧
      placeOnBoard s.board s.currentShape
        { x := s.currentPosition.x, y := s.currentPosition.y + (k : Nat) } s.currentColor =
          some s1.board := by
  obtain ⟨k, s1, hk, hfree, hstop, hplace, hlast, hnone, hfuel⟩ :=
    hardDrop_descends rnd (19 - (s.currentPosition.y + r)).toNat s hwf
      ⟨r, c, hocc, by simp only [ROWS]; push_cast; omega⟩
  have hk2 : k + 1 ≤ ROWS := by
    simp only [ROWS]
    omega
  exact ⟨k, s1, hk2, hfuel ROWS hk2, hnone, hfuel, hfree, hstop, hlast, hplace⟩

/-- C15, at a concrete input: the T piece of the sample game falls 18 rows and locks. -/
theorem hardDrop_terminates_witness :
    WellFormed sampleState ∧ Occupied sampleState.currentShape 0 0 ∧
      0 ≤ sampleState.currentPosition.y ∧
      (hardDrop ROWS sampleState 3).map (fun s => boardAt s.board 19 5) =
        some (some "#FF0D72") ∧
      ∃ k s1, k + 1 ≤ ROWS ∧ hardDrop ROWS sampleState 3 = some s1 := by
  refine ⟨by decide, by decide, by decide, by decide, ?_⟩
  obtain ⟨k, s1, h1, h2, _⟩ :=
    hardDrop_terminates sampleState 3 (by decide) 0 0 (by decide) (by decide)
  exact ⟨k, s1, h1, h2⟩

/-- C16 fails as stated: `hardDrop` stops at the first position from which the piece cannot
move down, which need not be the lowest position without collision.  In `overhangGame` the
O piece at `(1, 0)` is locked at `(1, 13)`, on the roof of row 15, although it would not
collide at `(1, 18)` in the empty space under that roof. -/
theorem hardDrop_not_lowest :
    overhangGame.map (fun s => (s.currentPosition,
        collision s.board s.currentPosition s.currentShape,
        collision s.board { x := 1, y := 18 } s.currentShape)) =
      some ({ x := 1, y := 0 }, false, false) ∧
    (overhangGame.bind fun s => hardDrop 20 s 0).map (fun s => s.board) =
      overhangGame.bind fun s =>
        placeOnBoard s.board s.currentShape { x := 1, y := 13 } s.currentColor := by
  constructor <;> decide

/-- C16, amended: in a state with a 20x10 board whose active piece at `(x, y)` does not
collide and has an occupied cell, `hardDrop` terminates and locks the piece at `(x, y + k)`,
the first resting position straight below: the shape collides at no `(x, y + j)` with
`j <= k` and collides at `(x, y + k + 1)`.  The cells written are those of the shape at
`(x, y + k)`, and every other board cell keeps its value. -/
theorem hardDrop_first_rest (s : State) (rnd : Fin 7) (hb : IsBoard s.board)
    (hc : s.currentColor ≠ "") (hn : s.nextShape ≠ []) (r c : Nat)
    (hocc : Occupied s.currentShape r c)
    (hfree : collision s.board s.currentPosition s.currentShape = false) :
    ∃ k s1, (∀ fuel, k + 1 ≤ fuel → hardDrop fuel s rnd = some s1) ∧
      (∀ j : Nat, j ≤ k →
        collision s.board { x := s.currentPosition.x, y := s.currentPosition.y + (j : Nat) }
          s.currentShape = false) ∧
      collision s.board { x := s.currentPosition.x, y := s.currentPosition.y + (k + 1 : Nat) }
        s.currentShape = true ∧
      placeOnBoard s.board s.currentShape
        { x := s.currentPosition.x, y := s.currentPosition.y + (k : Nat) } s.currentColor =
          some s1.board ∧
      (∀ p q, Occupied s.currentShape p q → s.currentPosition.y + (k : Nat) + p ≥ 0 →
        boardAt s1.board (s.currentPosition.y + (k : Nat) + p) (s.currentPosition.x + q) =
          some s.currentColor) ∧
      (∀ i j, (¬ ∃ p q, Occupied s.currentShape p q ∧
          s.currentPosition.y + (k : Nat) + p ≥ 0 ∧
          i = s.currentPosition.y + (k : Nat) + p ∧ j = s.currentPosition.x + q) →
        boardAt s1.board i j = boardAt s.board i j) := by
  have hwf : WellFormed s :=
    ⟨hb, hc, inGrid_of_not_collision s.board hb _ _ hfree, hn⟩
  obtain ⟨k, s1, _, hfree2, hstop, hplace, _, _, hfuel⟩ :=
    hardDrop_descends rnd (19 - (s.currentPosition.y + r)).toNat s hwf
      ⟨r, c, hocc, by simp only [ROWS]; push_cast; omega⟩
  have hfree3 : ∀ j : Nat, j ≤ k →
      collision s.board { x := s.currentPosition.x, y := s.currentPosition.y + (j : Nat) }
        s.currentShape = false := by
    intro j hj
    cases j with
    | zero => simpa using hfree
    | succ j => exact hfree2 j (by omega)
  obtain ⟨b1, hb1, _, hcells⟩ :=
    placeOnBoard_spec s.board hb s.currentShape
      { x := s.currentPosition.x, y := s.currentPosition.y + (k : Nat) } s.currentColor hc
      (inGrid_of_not_collision s.board hb _ _ (hfree3 k (le_refl _)))
  have hsame : b1 = s1.board := by
    rw [hb1] at hplace
    exact Option.some.inj hplace
  refine ⟨k, s1, hfuel, hfree3, hstop, hplace, fun p q hpq hrow => ?_, fun i j hno => ?_⟩
  · rw [← hsame]
    exact (hcells _ _).1 ⟨p, q, hpq, hrow, rfl, rfl⟩
  · rw [← hsame]
    exact (hcells i j).2 hno

/-- C16 amended, at a concrete input: the T piece of the sample game. -/
theorem hardDrop_first_rest_witness :
    IsBoard sampleState.board ∧ sampleState.currentColor ≠ "" ∧ sampleState.nextShape ≠ [] ∧
      Occupied sampleState.currentShape 0 0 ∧
      collision sampleState.board sampleState.currentPosition sampleState.currentShape = false ∧
      ∃ k s1, ∀ fuel, k + 1 ≤ fuel → hardDrop fuel sampleState 3 = some s1 := by
  refine ⟨by decide, by decide, by decide, by decide, by decide, ?_⟩
  obtain ⟨k, s1, h1, _⟩ :=
    hardDrop_first_rest sampleState 3 (by decide) (by decide) (by decide) 0 0 (by decide)
      (by decide)
  exact ⟨k, s1, h1⟩

/-- C17 fails on the code: `handleMobileAction` has no `isPaused` guard, so the mobile
action `hard-drop` runs `hardDrop()` while the game is paused.  In the paused game that
started with the T piece, the piece is dropped and locked on the bottom rows and the next
piece becomes active. -/
theorem paused_hard_drop_still_locks :
    pausedGame.map (fun s => (s.isPaused, s.currentShape, boardAt s.board 19 5)) =
        some (true, [[1, 1, 1], [0, 1, 0]], none) ∧
      (pausedGame.bind fun s => handleMobileAction s Action.hardDrop 20 4).map
          (fun s => (s.isPaused, s.currentShape, boardAt s.board 19 5)) =
        some (true, [[1, 1], [1, 1]], some "#FF0D72") := by
  constructor <;> decide

/-- C18: in every state of a game the board has exactly `ROWS` rows of exactly `COLUMNS`
cells, every index `board[y][x]` read by a call of `collision` on that board (for any
position and shape) lies in `[0, ROWS) x [0, COLUMNS)`, and so does every index written by
`placePiece` for the active piece, which therefore succeeds and leaves a 20x10 board. -/
theorem board_shape_invariant (s : State) (h : Reachable s) :
    (s.board.length = ROWS ∧ ∀ row ∈ s.board, row.length = COLUMNS) ∧
    (∀ pos shape, ∀ p ∈ collisionReads s.board pos shape,
      0 ≤ p.1 ∧ p.1 < ROWS ∧ 0 ≤ p.2 ∧ p.2 < COLUMNS) ∧
    (∀ r c, Occupied s.currentShape r c → s.currentPosition.y + r ≥ 0 →
      s.currentPosition.y + r < ROWS ∧ 0 ≤ s.currentPosition.x + c ∧
        s.currentPosition.x + c < COLUMNS) ∧
    (∃ b1, placePiece s = some { s with board := b1 } ∧
      b1.length = ROWS ∧ ∀ row ∈ b1, row.length = COLUMNS) := by
  obtain ⟨hb, hc, hin, _⟩ := reachable_inv s h
  obtain ⟨b1, hb1, hB1, _⟩ :=
    placeOnBoard_spec s.board hb s.currentShape s.currentPosition s.currentColor hc hin
  refine ⟨⟨hb.1, fun row hrow => (hb.2 row hrow).1⟩,
    fun pos shape p hp => readsFrom_inRange s.board pos shape _ p hp, hin,
    ⟨b1, by simp [placePiece, hb1], hB1.1, fun row hrow => (hB1.2 row hrow).1⟩⟩

/-- C18, at a concrete input: the state right after `startGame`. -/
theorem board_shape_invariant_witness :
    Reachable sampleState ∧ sampleState.board.length = ROWS ∧
      ∀ row ∈ sampleState.board, row.length = COLUMNS :=
  ⟨Reachable.start 0 1 0 sampleState rfl,
    (board_shape_invariant sampleState (Reachable.start 0 1 0 sampleState rfl)).1⟩

/-- C19 fails on the code: the deferred compaction shifts the rows above a cleared row down
without looking at the active piece.  In `underRoofGame` the I piece lies at `(2, 18)` under
the arm of a locked T piece, without collision; when the timer of row 19 fires, the arm
moves down onto the piece, which then collides while `gameOver` is false. -/
theorem compaction_overlaps_active_piece :
    underRoofGame.map (fun s => (s.gameOver, s.currentPosition, s.completedLines,
        collision s.board s.currentPosition s.currentShape)) =
      some (false, { x := 2, y := 18 }, [19], false) ∧
    overlapGame.map (fun s => (s.gameOver, s.currentPosition,
        collision s.board s.currentPosition s.currentShape)) =
      some (false, { x := 2, y := 18 }, true) ∧
    ∃ s, Reachable s ∧ s.gameOver = false ∧
      collision s.board s.currentPosition s.currentShape = true := by
  have h1 : overlapGame.map (fun s => (s.gameOver, s.currentPosition,
        collision s.board s.currentPosition s.currentShape)) =
      some (false, { x := 2, y := 18 }, true) := by decide
  refine ⟨by decide, h1, ?_⟩
  cases hg : overlapGame with
  | none => rw [hg] at h1; cases h1
  | some s =>
    rw [hg] at h1
    simp only [Option.map_some', Option.some.injEq, Prod.mk.injEq] at h1
    exact ⟨s, reachable_game 4 4 0 _ s hg, h1.1, h1.2.2⟩

/-- C20 fails on the code: a full row that is still on the board when another piece locks is
detected and scored again.  In the game below row 19 is completed (100 points), the next
piece is hard-dropped before the timer fires (100 points more for the same row), and the
two timers then take one full row out of the board: no compaction is pending, the score is
200 and one full row was removed. -/
theorem full_row_scored_twice :
    ((startGame initState 4 4 0).bind fun s0 => runCounting s0 0 doubleScoreEvents).map
        (fun p => (p.1.pendingCompactions, p.1.score, p.2)) = some (0, 200, 1) ∧
    ∃ s0 s removed, startGame initState 4 4 0 = some s0 ∧
      runCounting s0 0 doubleScoreEvents = some (s, removed) ∧ Reachable s ∧
      s.pendingCompactions = 0 ∧ s.score ≠ 100 * removed := by
  have h1 : ((startGame initState 4 4 0).bind fun s0 =>
      runCounting s0 0 doubleScoreEvents).map
        (fun p => (p.1.pendingCompactions, p.1.score, p.2)) = some (0, 200, 1) := by decide
  refine ⟨h1, ?_⟩
  cases h0 : startGame initState 4 4 0 with
  | none => rw [h0] at h1; cases h1
  | some s0 =>
    rw [h0] at h1
    simp only [Option.some_bind] at h1
    cases hr : runCounting s0 0 doubleScoreEvents with
    | none => rw [hr] at h1; cases h1
    | some p =>
      obtain ⟨s, removed⟩ := p
      rw [hr] at h1
      simp only [Option.map_some', Option.some.injEq, Prod.mk.injEq] at h1
      refine ⟨s0, s, removed, rfl, hr, ?_, h1.1, ?_⟩
      · exact reachable_run _ s0 s (Reachable.start 4 4 0 s0 h0)
          (run_of_runCounting _ s0 0 s removed hr)
      · rw [h1.2.1, h1.2.2]
        decide

end Tetris
